import Mathlib

set_option maxHeartbeats 1000000

/-!
Verification of the ONNX graph-rewrite passes of
`optimizer_scripts/tools/replacing.py`.

The file contains a shallow embedding of the protobuf data model the
passes operate on, an embedding of the Python list primitives they use
(with `Except` for the exceptions Python raises), the rewrite passes
themselves, and theorems about their behaviour.
-/

/-! ## Data model (ONNX protobuf subset) -/

/-- A tensor payload (ONNX `TensorProto`): shape plus data in one of two
encodings.  The raw byte buffer of the original is represented by its
decoded float values, since every pass only copies or reindexes the
decoded numbers and never inspects individual bytes. -/
structure TensorProto where
  name : String
  data_type : Int
  dims : List Int
  float_data : List Rat
  raw_data : List Rat
deriving DecidableEq

instance : Inhabited TensorProto := ⟨⟨"", 0, [], [], []⟩⟩

/-- A node attribute (ONNX `AttributeProto`).  As in protobuf, every
field is materialised with a default value, so reading e.g. `ints` of an
attribute that was set as a scalar yields `[]`, exactly as in Python. -/
structure AttributeProto where
  name : String
  i : Int := 0
  f : Rat := 0
  ints : List Int := []
  t : TensorProto := default
deriving DecidableEq

instance : Inhabited AttributeProto := ⟨⟨"", 0, 0, [], default⟩⟩

/-- One dimension of a shape: either a known size or a symbolic/unknown
dimension.  Reading `dim_value` of a symbolic dimension yields the
protobuf default `0`, as in Python. -/
inductive Dim where
  | known (v : Int)
  | param (s : String)
deriving DecidableEq

/-- The `.dim_value` accessor: `0` for a symbolic dimension. -/
def Dim.dim_value : Dim → Int
  | .known v => v
  | .param _ => 0

/-- Shape/type metadata for a named value (ONNX `ValueInfoProto`);
`dim` stands for `.type.tensor_type.shape.dim`. -/
structure ValueInfoProto where
  name : String
  elem_type : Int := 0
  dim : List Dim := []
deriving DecidableEq

/-- An operator node (ONNX `NodeProto`).  The attribute list is called
`attr` because `attribute` is reserved in Lean. -/
structure NodeProto where
  op_type : String
  name : String := ""
  input : List String := []
  output : List String := []
  attr : List AttributeProto := []
deriving DecidableEq

/-- The graph (ONNX `GraphProto`). -/
structure GraphProto where
  node : List NodeProto := []
  input : List ValueInfoProto := []
  output : List ValueInfoProto := []
  value_info : List ValueInfoProto := []
  initializer : List TensorProto := []
deriving DecidableEq

/-! ## Python list primitives

Python raises `IndexError` on out-of-range indexing and `ValueError`
when `list.remove` does not find its argument; both are modelled with
`Except String`. -/

/-- `l[i]` for a non-negative index. -/
def pyGet {α : Type} (l : List α) (i : Nat) : Except String α :=
  match l.get? i with
  | some x => Except.ok x
  | none => Except.error "IndexError"

/-- `l[i]` for a possibly negative index (Python wraps negative
indices around the end of the list). -/
def pyIdx {α : Type} (l : List α) (i : Int) : Except String α :=
  if 0 ≤ i then pyGet l i.toNat
  else if i.natAbs ≤ l.length then pyGet l (l.length - i.natAbs)
  else Except.error "IndexError"

/-- `l.remove(x)`: drop the first element equal to `x`, `ValueError` if
there is none. -/
def pyRemove {α : Type} [DecidableEq α] : List α → α → Except String (List α)
  | [], _ => Except.error "ValueError"
  | y :: ys, x =>
    if y = x then Except.ok ys
    else
      match pyRemove ys x with
      | Except.ok r => Except.ok (y :: r)
      | Except.error e => Except.error e

/-- `for x in rs: l.remove(x)`. -/
def pyRemoveAll {α : Type} [DecidableEq α] : List α → List α → Except String (List α)
  | l, [] => Except.ok l
  | l, r :: rs =>
    match pyRemove l r with
    | Except.ok m => pyRemoveAll m rs
    | Except.error e => Except.error e

theorem pyGet_eq_ok {α : Type} {l : List α} {i : Nat} {x : α} :
    pyGet l i = Except.ok x ↔ l.get? i = some x := by
  unfold pyGet
  cases h : l.get? i <;> simp

theorem pyRemove_ok_iff {α : Type} [DecidableEq α] {l l' : List α} {x : α} :
    pyRemove l x = Except.ok l' ↔
      ∃ l₁ l₂, l = l₁ ++ x :: l₂ ∧ x ∉ l₁ ∧ l' = l₁ ++ l₂ := by
  induction l generalizing l' with
  | nil =>
    simp [pyRemove]
  | cons y ys ih =>
    by_cases hyx : y = x
    · subst hyx
      simp only [pyRemove, if_pos rfl]
      constructor
      · rintro h
        cases h
        exact ⟨[], ys, by simp⟩
      · rintro ⟨l₁, l₂, heq, hni, hl'⟩
        cases l₁ with
        | nil =>
          simp only [List.nil_append, List.cons.injEq, true_and] at heq
          simp only [List.nil_append] at hl'
          subst hl'
          simp [pyRemove, heq]
        | cons a l₁ =>
          simp only [List.cons_append, List.cons.injEq] at heq
          exact absurd (heq.1 ▸ List.mem_cons_self a l₁) hni
    · constructor
      · intro h
        simp only [pyRemove, if_neg hyx] at h
        cases hr : pyRemove ys x with
        | error e => rw [hr] at h; cases h
        | ok r =>
          rw [hr] at h
          cases h
          obtain ⟨l₁, l₂, heq, hni, hl'⟩ := ih.mp hr
          refine ⟨y :: l₁, l₂, by simp [heq], ?_, by simp [hl']⟩
          intro hm
          rcases List.mem_cons.mp hm with h1 | h2
          · exact hyx h1.symm
          · exact hni h2
      · rintro ⟨l₁, l₂, heq, hni, hl'⟩
        cases l₁ with
        | nil =>
          simp only [List.nil_append, List.cons.injEq] at heq
          exact absurd heq.1 hyx
        | cons a l₁ =>
          simp only [List.cons_append, List.cons.injEq] at heq
          obtain ⟨hya, heq⟩ := heq
          have hrec : pyRemove ys x = Except.ok (l₁ ++ l₂) :=
            ih.mpr ⟨l₁, l₂, heq, fun hm => hni (List.mem_cons_of_mem a hm), rfl⟩
          simp only [pyRemove, if_neg hyx, hrec]
          rw [hl', hya]
          simp

/-- Removing one element decrements that element's count and leaves
other counts alone. -/
theorem pyRemove_count {α : Type} [DecidableEq α] {l l' : List α} {x : α}
    (h : pyRemove l x = Except.ok l') (v : α) :
    l'.count v = l.count v - (if v = x then 1 else 0) := by
  obtain ⟨l₁, l₂, heq, hni, hl'⟩ := pyRemove_ok_iff.mp h
  subst heq hl'
  by_cases hvx : v = x
  · subst hvx
    simp [List.count_append, List.count_cons]
  · simp [List.count_append, List.count_cons, hvx]

theorem pyRemove_subset {α : Type} [DecidableEq α] {l l' : List α} {x : α}
    (h : pyRemove l x = Except.ok l') : l' ⊆ l := by
  obtain ⟨l₁, l₂, heq, _, hl'⟩ := pyRemove_ok_iff.mp h
  subst heq hl'
  intro a ha
  rcases List.mem_append.mp ha with h1 | h2
  · exact List.mem_append.mpr (Or.inl h1)
  · exact List.mem_append.mpr (Or.inr (List.mem_cons_of_mem x h2))

theorem pyRemove_not_mem {α : Type} [DecidableEq α] {l : List α} {x : α}
    (h : x ∉ l) : pyRemove l x = Except.error "ValueError" := by
  induction l with
  | nil => rfl
  | cons y ys ih =>
    have hyx : ¬ (y = x) := fun hy => h (hy ▸ List.mem_cons_self y ys)
    simp only [pyRemove, if_neg hyx,
      ih (fun hm => h (List.mem_cons_of_mem y hm))]

theorem pyRemove_mem_of_ne {α : Type} [DecidableEq α] {l l' : List α}
    {x v : α} (h : pyRemove l x = Except.ok l') (hv : v ∈ l) (hne : v ≠ x) :
    v ∈ l' := by
  obtain ⟨l₁, l₂, heq, _, hl'⟩ := pyRemove_ok_iff.mp h
  subst heq hl'
  rcases List.mem_append.mp hv with h1 | h2
  · exact List.mem_append.mpr (Or.inl h1)
  · rcases List.mem_cons.mp h2 with h3 | h4
    · exact absurd h3 hne
    · exact List.mem_append.mpr (Or.inr h4)

theorem pyRemove_eq_diff {α : Type} [DecidableEq α] {l l' : List α} {x v : α}
    (h : pyRemove l x = Except.ok l') (hv : v ∈ l) (hv' : v ∉ l') : v = x := by
  by_contra hne
  exact hv' (pyRemove_mem_of_ne h hv hne)

theorem pyRemove_sublist {α : Type} [DecidableEq α] {l l' : List α} {x : α}
    (h : pyRemove l x = Except.ok l') : l'.Sublist l := by
  obtain ⟨l₁, l₂, heq, _, hl'⟩ := pyRemove_ok_iff.mp h
  subst heq hl'
  exact (List.sublist_cons_self x l₂).append_left l₁

theorem pyRemove_not_mem_result {α : Type} [DecidableEq α] {l l' : List α}
    {x : α} (h : pyRemove l x = Except.ok l') (hnd : l.Nodup) : x ∉ l' := by
  obtain ⟨l₁, l₂, heq, hni, hl'⟩ := pyRemove_ok_iff.mp h
  subst heq hl'
  intro hx
  rcases List.mem_append.mp hx with h1 | h2
  · exact hni h1
  · have := List.Nodup.of_append_right hnd
    exact (List.nodup_cons.mp this).1 h2

theorem pyRemoveAll_count {α : Type} [DecidableEq α] {l l' rs : List α}
    (h : pyRemoveAll l rs = Except.ok l') (v : α) :
    l'.count v = l.count v - rs.count v := by
  induction rs generalizing l with
  | nil =>
    cases h
    simp
  | cons r rs ih =>
    simp only [pyRemoveAll] at h
    cases hr : pyRemove l r with
    | error e => rw [hr] at h; cases h
    | ok m =>
      rw [hr] at h
      have hm := ih h
      rw [hm, pyRemove_count hr v, List.count_cons]
      by_cases hvr : v = r
      · subst hvr
        simp
        omega
      · simp [hvr, Ne.symm hvr]

theorem pyRemoveAll_subset {α : Type} [DecidableEq α] {l l' rs : List α}
    (h : pyRemoveAll l rs = Except.ok l') : l' ⊆ l := by
  induction rs generalizing l with
  | nil =>
    cases h
    exact fun a ha => ha
  | cons r rs ih =>
    simp only [pyRemoveAll] at h
    cases hr : pyRemove l r with
    | error e => rw [hr] at h; cases h
    | ok m =>
      rw [hr] at h
      exact fun a ha => pyRemove_subset hr (ih h ha)

/-- An element survives the removal loop whenever more copies of it are
present than are removed. -/
theorem pyRemoveAll_mem {α : Type} [DecidableEq α] {l l' rs : List α}
    (h : pyRemoveAll l rs = Except.ok l') {v : α}
    (hcnt : rs.count v < l.count v) : v ∈ l' := by
  have hc := pyRemoveAll_count h v
  have hpos : 0 < l'.count v := by omega
  exact List.count_pos_iff.mp hpos

/-- An element none of whose copies are removed survives the removal
loop. -/
theorem pyRemoveAll_mem_of_not_removed {α : Type} [DecidableEq α]
    {l l' rs : List α} (h : pyRemoveAll l rs = Except.ok l') {v : α}
    (hv : v ∈ l) (hns : v ∉ rs) : v ∈ l' :=
  pyRemoveAll_mem h (by
    have h1 : rs.count v = 0 := List.count_eq_zero.mpr hns
    have h2 : 0 < l.count v := List.count_pos_iff.mpr hv
    omega)

/-- Prepending an element that no removal matches commutes with the
removal loop. -/
theorem pyRemoveAll_cons_skip {α : Type} [DecidableEq α] {rs L L' : List α}
    {x : α} (hx : ∀ r ∈ rs, x ≠ r)
    (hok : pyRemoveAll L rs = Except.ok L') :
    pyRemoveAll (x :: L) rs = Except.ok (x :: L') := by
  induction rs generalizing L with
  | nil =>
    cases hok
    rfl
  | cons r rs ih =>
    simp only [pyRemoveAll] at hok ⊢
    cases hr : pyRemove L r with
    | error e => rw [hr] at hok; cases hok
    | ok m =>
      rw [hr] at hok
      have hstep : pyRemove (x :: L) r = Except.ok (x :: m) := by
        simp only [pyRemove, if_neg (hx r (List.mem_cons_self r rs)), hr]
      rw [hstep]
      exact ih (fun r hr => hx r (List.mem_cons_of_mem _ hr)) hok

/-- Removing, in scan order, exactly the elements of `l` that satisfy a
pointwise predicate — with trailing elements `adds` that do not satisfy
it — keeps the non-satisfying part of `l` followed by `adds`. -/
theorem pyRemoveAll_filter {α : Type} [DecidableEq α] (l adds : List α)
    (p : α → Bool) :
    pyRemoveAll (l ++ adds) (l.filter p) =
      Except.ok (l.filter (fun a => !p a) ++ adds) := by
  induction l with
  | nil =>
    simp [pyRemoveAll]
  | cons x xs ih =>
    by_cases hx : p x
    · have hstep : pyRemove (x :: (xs ++ adds)) x = Except.ok (xs ++ adds) := by
        simp [pyRemove]
      have hgoal : pyRemoveAll (x :: (xs ++ adds)) (x :: xs.filter p) =
          Except.ok (xs.filter (fun a => !p a) ++ adds) := by
        simp only [pyRemoveAll]
        rw [hstep]
        exact ih
      simpa [List.filter_cons, hx] using hgoal
    · have hne : ∀ r ∈ xs.filter p, x ≠ r := by
        intro r hr hxr
        have hpr := List.of_mem_filter hr
        rw [← hxr] at hpr
        simp [hx] at hpr
      have hres := pyRemoveAll_cons_skip hne ih
      simpa [List.filter_cons, hx] using hres

/-! ## The lookup and construction service (`tools/helper.py`)

The helper module is not part of the analysed source; the spec lists it
as an external collaborator with fixed signatures (spec §6).  Each
definition below is modelled from the spec. -/

/-- Modelled from the spec: name-to-node resolution over a node list
(the list form is needed because the passes run it over the evolving
node list). -/
def findNodeByOutput (nodes : List NodeProto) (s : String) : Option NodeProto :=
  nodes.find? (fun n => n.output.any (fun o => o == s))

/-- Modelled from the spec: `find_node_by_output_name(g, name)` resolves
a name to the node producing it, or none. -/
def find_node_by_output_name (g : GraphProto) (s : String) : Option NodeProto :=
  findNodeByOutput g.node s

/-- Modelled from the spec: name-to-ValueInfo resolution over a list of
ValueInfo entries. -/
def findValueInfo (vis : List ValueInfoProto) (s : String) : Option ValueInfoProto :=
  vis.find? (fun v => v.name == s)

/-- Modelled from the spec: `find_value_by_name(g, name)` resolves a name
to its intermediate ValueInfo (only), or none. -/
def find_value_by_name (g : GraphProto) (s : String) : Option ValueInfoProto :=
  findValueInfo g.value_info s

/-- Modelled from the spec: `find_input_by_name(g, name)`. -/
def find_input_by_name (g : GraphProto) (s : String) : Option ValueInfoProto :=
  findValueInfo g.input s

/-- Modelled from the spec: `find_output_by_name(g, name)`. -/
def find_output_by_name (g : GraphProto) (s : String) : Option ValueInfoProto :=
  findValueInfo g.output s

/-- Modelled from the spec: `find_size_shape_from_value(value)` returns
`(element_count, shape)`; an absent value yields `(0, [])`. -/
def find_size_shape_from_value (v : Option ValueInfoProto) : Int × List Int :=
  match v with
  | none => (0, [])
  | some v => ((v.dim.map Dim.dim_value).prod, v.dim.map Dim.dim_value)

/-- Modelled from the spec: `list_to_constant(name, shape, values)`
builds a Constant node wrapping the given values reshaped to `shape`. -/
def list_to_constant (s : String) (shape : List Int) (values : List Rat) :
    NodeProto :=
  { op_type := "Constant", name := s, input := [], output := [s],
    attr := [{ name := "value",
               t := { name := s, data_type := 1, dims := shape,
                      float_data := values, raw_data := [] } }] }

/-- Modelled from the spec: the Topological Stabilizer of `tools/other.py`
reorders the node list in place into a valid dependency order (spec §6).
Every property proved in this file is invariant under permutations of the
node list, so the reordering is modelled by the identity permutation. -/
def topological_sort (g : GraphProto) : GraphProto := g

/-! ## `replace_Squeeze_with_Reshape` and `replace_Unsqueeze_with_Reshape`
(`replacing.py` lines 84-117 and 119-153)

The two functions are textually identical up to the operator name and
the error message, so they share one scan parameterised by the name. -/

/-- The scan of the Squeeze/Unsqueeze pass: walk the node list collecting
appended nodes and nodes to remove.  Nodes appended during the Python
iteration are also visited by its `for` loop, but they are
`Constant`/`Reshape` nodes which the op-type filter skips, so the scan is
equivalent to walking the original list. -/
def squeezeGo (g : GraphProto) (opName : String) :
    List NodeProto → List NodeProto → List NodeProto →
    Except String (List NodeProto × List NodeProto)
  | [], adds, rms => Except.ok (adds, rms)
  | n :: todo, adds, rms =>
    if n.op_type = opName then
      match pyGet n.output 0 with
      | Except.error e => Except.error e
      | Except.ok o =>
        match (match find_value_by_name g o with
               | some v => some v
               | none => find_output_by_name g o) with
        | none => Except.error ("Cannot get shape for " ++ opName)
        | some ov =>
          let shape := ov.dim.map Dim.dim_value
          let cNode := list_to_constant (n.name ++ "_shape")
            [(shape.length : Int)] (shape.map (fun i => (i : Rat)))
          match pyGet n.input 0 with
          | Except.error e => Except.error e
          | Except.ok i0 =>
            let rNode : NodeProto :=
              { op_type := "Reshape", name := n.name,
                input := [i0, n.name ++ "_shape"], output := n.output }
            squeezeGo g opName todo (adds ++ [cNode, rNode]) (rms ++ [n])
    else squeezeGo g opName todo adds rms

/-- `replace_Squeeze_with_Reshape(g)`. -/
def replace_Squeeze_with_Reshape (g : GraphProto) : Except String GraphProto :=
  match squeezeGo g "Squeeze" g.node [] [] with
  | Except.error e => Except.error e
  | Except.ok (adds, rms) =>
    match pyRemoveAll (g.node ++ adds) rms with
    | Except.error e => Except.error e
    | Except.ok nodes => Except.ok (topological_sort { g with node := nodes })

/-- `replace_Unsqueeze_with_Reshape(g)`. -/
def replace_Unsqueeze_with_Reshape (g : GraphProto) : Except String GraphProto :=
  match squeezeGo g "Unsqueeze" g.node [] [] with
  | Except.error e => Except.error e
  | Except.ok (adds, rms) =>
    match pyRemoveAll (g.node ++ adds) rms with
    | Except.error e => Except.error e
    | Except.ok nodes => Except.ok (topological_sort { g with node := nodes })

/-! ## `replace_split_with_slices` (`replacing.py` lines 381-447) -/

/-- The guard `split is not []` of line 412 compares object identity,
never value equality, so it is true on every execution; both branches of
the conditional are nevertheless translated, the second being dead code. -/
def pySplitIsNotEmptyList : Bool := true

/-- The slice-emitting loop of the live branch (lines 414-427): one Slice
node per entry of the `split` size list, with a running offset.  The
output-name list is consumed in lockstep with the size list, which agrees
with the positional indexing `output_val_names[i]` of the source. -/
def splitSlices (i0 : String) (ax : Int) :
    List String → List Int → Int → Except String (List NodeProto)
  | _, [], _ => Except.ok []
  | names, sz :: rest, pos =>
    let pos' := pos + sz
    match pyGet names 0 with
    | Except.error e => Except.error e
    | Except.ok nm =>
      let sl : NodeProto :=
        { op_type := "Slice", name := nm, input := [i0], output := [nm],
          attr := [{ name := "axes", ints := [ax] },
                   { name := "ends", ints := [pos'] },
                   { name := "starts", ints := [pos' - sz] }] }
      match splitSlices i0 ax (names.drop 1) rest pos' with
      | Except.error e => Except.error e
      | Except.ok more => Except.ok (sl :: more)

/-- The even-split branch of the source (lines 429-443): `width` is the
floor of `length / n_out`; one Slice node per output with
`start = i*width`, `end = (i+1)*width`.  This branch is unreachable (see
`pySplitIsNotEmptyList`). -/
def splitEven (i0 : String) (ax : Int) (outputs : List String)
    (length : Int) : Except String (List NodeProto) :=
  if outputs.length = 0 then Except.error "ZeroDivisionError"
  else
    let width := length.fdiv (outputs.length : Int)
    Except.ok ((List.range outputs.length).map (fun i =>
      let nm := outputs.getD i ""
      { op_type := "Slice", name := nm, input := [i0], output := [nm],
        attr := [{ name := "axes", ints := [ax] },
                 { name := "ends", ints := [(1 + (i : Int)) * width] },
                 { name := "starts", ints := [(i : Int) * width] }] }))

/-- The scan of `replace_split_with_slices`.  Appended Slice nodes are
visited by the Python `for` loop but skipped by the `Split` filter. -/
def splitGo (g : GraphProto) :
    List NodeProto → List NodeProto → List NodeProto →
    Except String (List NodeProto × List NodeProto)
  | [], adds, rms => Except.ok (adds, rms)
  | n :: todo, adds, rms =>
    if n.op_type = "Split" then
      match pyGet n.input 0 with
      | Except.error e => Except.error e
      | Except.ok i0 =>
        let input_value := match find_value_by_name g i0 with
          | some v => some v
          | none => find_input_by_name g i0
        let shape := (find_size_shape_from_value input_value).2
        if shape = [] then splitGo g todo adds rms
        else
          let ax := n.attr.foldl
            (fun a item => if item.name == "axis" then item.i else a) 0
          match input_value with
          | none => Except.error "AttributeError"
          | some iv =>
            match pyIdx iv.dim ax with
            | Except.error e => Except.error e
            | Except.ok dlen =>
              let length := dlen.dim_value
              if pySplitIsNotEmptyList then
                match pyGet n.attr 1 with
                | Except.error e => Except.error e
                | Except.ok a1 =>
                  match splitSlices i0 ax n.output a1.ints 0 with
                  | Except.error e => Except.error e
                  | Except.ok sls => splitGo g todo (adds ++ sls) (rms ++ [n])
              else
                match splitEven i0 ax n.output length with
                | Except.error e => Except.error e
                | Except.ok sls => splitGo g todo (adds ++ sls) (rms ++ [n])
    else splitGo g todo adds rms

/-- `replace_split_with_slices(g)`. -/
def replace_split_with_slices (g : GraphProto) : Except String GraphProto :=
  match splitGo g g.node [] [] with
  | Except.error e => Except.error e
  | Except.ok (adds, rms) =>
    match pyRemoveAll (g.node ++ adds) rms with
    | Except.error e => Except.error e
    | Except.ok nodes => Except.ok (topological_sort { g with node := nodes })

/-! ## `replace_Reshape_with_Flatten` (`replacing.py` lines 50-82) -/

/-- One consumer test of the loop of lines 62-67: the node consumes `o`
as its first input and is a Gemm. -/
def gemmPred (i : NodeProto) (o : String) : Bool :=
  !i.input.isEmpty && i.input.headD "" == o && i.op_type == "Gemm"

/-- The `found` flag of lines 60-67: some node consumes `o` as its first
input and is a Gemm. -/
def gemmConsumer (nodes : List NodeProto) (o : String) : Bool :=
  nodes.any (fun i => gemmPred i o)

/-- The consumer search of lines 60-67: `found` is true when some node
consumes `n.output[0]` as its first input and is a `Gemm`.  The indexing
`node.output[0]` is only evaluated once a candidate with a non-empty
input list is reached, so an empty output list raises only in that
case. -/
def flattenFound (all : List NodeProto) (n : NodeProto) : Except String Bool :=
  if all.all (fun i => i.input.isEmpty) then Except.ok false
  else
    match n.output.get? 0 with
    | none => Except.error "IndexError"
    | some o => Except.ok (gemmConsumer all o)

/-- The scan of `replace_Reshape_with_Flatten`, threading the node list
as processed-prefix plus unprocessed-suffix because the pass retags
nodes in place and the consumer search of each step runs over the whole
current list. -/
def flattenGo :
    List NodeProto → List NodeProto → List ValueInfoProto → List NodeProto →
    Except String (List NodeProto × List ValueInfoProto × List NodeProto)
  | done, [], vi, rms => Except.ok (done, vi, rms)
  | done, n :: rest, vi, rms =>
    if n.op_type = "Reshape" then
      match flattenFound (done ++ n :: rest) n with
      | Except.error e => Except.error e
      | Except.ok false => flattenGo (done ++ [n]) rest vi rms
      | Except.ok true =>
        match pyGet n.input 1 with
        | Except.error e => Except.error e
        | Except.ok s1 =>
          match findNodeByOutput (done ++ n :: rest) s1 with
          | none => Except.error "AttributeError"
          | some shape_node =>
            if shape_node.op_type = "Constant" then
              let n' : NodeProto :=
                { n with op_type := "Flatten", attr := [],
                         input := n.input.dropLast }
              match pyGet shape_node.output 0 with
              | Except.error e => Except.error e
              | Except.ok so =>
                match findValueInfo vi so with
                | none => Except.error "ValueError"
                | some sv =>
                  match pyRemove vi sv with
                  | Except.error e => Except.error e
                  | Except.ok vi' =>
                    flattenGo (done ++ [n']) rest vi' (rms ++ [shape_node])
            else flattenGo (done ++ [n]) rest vi rms
    else flattenGo (done ++ [n]) rest vi rms

/-- `replace_Reshape_with_Flatten(g)`. -/
def replace_Reshape_with_Flatten (g : GraphProto) : Except String GraphProto :=
  match flattenGo [] g.node g.value_info [] with
  | Except.error e => Except.error e
  | Except.ok (nodes, vi, rms) =>
    match pyRemoveAll nodes rms with
    | Except.error e => Except.error e
    | Except.ok nodes' => Except.ok { g with node := nodes', value_info := vi }

/-! ## `replace_shape_with_constant` (`replacing.py` lines 339-379)

Because the Python graph is mutated in place, an exception raised
partway through the scan leaves the caller's graph partially rewritten;
the error therefore carries the graph state at the raise point. -/

/-- The scan of `replace_shape_with_constant`.  The reference count of
line 368 runs over the current node list: the original nodes (none are
removed before the loop ends) plus every constant appended so far,
including the one just appended for the current node. -/
def shapeGo (g : GraphProto) :
    List NodeProto → List NodeProto → List NodeProto → List ValueInfoProto →
    Except (String × GraphProto)
      (List NodeProto × List NodeProto × List ValueInfoProto)
  | [], adds, rms, vi => Except.ok (adds, rms, vi)
  | n :: todo, adds, rms, vi =>
    if n.op_type = "Shape" then
      match pyGet n.input 0 with
      | Except.error e =>
        Except.error (e, { g with node := g.node ++ adds, value_info := vi })
      | Except.ok i0 =>
        let input_value := match findValueInfo vi i0 with
          | some v => some v
          | none => find_input_by_name g i0
        match input_value with
        | none => shapeGo g todo adds rms vi
        | some iv =>
          if iv.dim.length = 0 then shapeGo g todo adds rms vi
          else
            let input_shape := iv.dim.map Dim.dim_value
            match pyGet n.output 0 with
            | Except.error e =>
              Except.error
                (e, { g with node := g.node ++ adds, value_info := vi })
            | Except.ok o =>
              let new_node := list_to_constant o [(input_shape.length : Int)]
                (input_shape.map (fun x => (x : Rat)))
              let adds' := adds ++ [new_node]
              let used := (g.node ++ adds').countP
                (fun m => decide (iv.name ∈ m.input))
              if used = 1 then
                match pyRemove vi iv with
                | Except.error e =>
                  Except.error
                    (e, { g with node := g.node ++ adds', value_info := vi })
                | Except.ok vi' => shapeGo g todo adds' (rms ++ [n]) vi'
              else shapeGo g todo adds' (rms ++ [n]) vi
    else shapeGo g todo adds rms vi

/-- `replace_shape_with_constant(g)`: on success also returns the
`replaced` flag of line 372. -/
def replace_shape_with_constant (g : GraphProto) :
    Except (String × GraphProto) (GraphProto × Bool) :=
  match shapeGo g g.node [] [] g.value_info with
  | Except.error e => Except.error e
  | Except.ok (adds, rms, vi) =>
    match pyRemoveAll (g.node ++ adds) rms with
    | Except.error e =>
      Except.error (e, { g with node := g.node ++ adds, value_info := vi })
    | Except.ok nodes =>
      Except.ok (topological_sort { g with node := nodes, value_info := vi },
        decide (0 < rms.length))

/-! ## `replace_dilated_conv` (`replacing.py` lines 200-279) -/

/-- `l[i] = x` on a Python list: `IndexError` out of range. -/
def pySet {α : Type} (l : List α) (i : Nat) (x : α) : Except String (List α) :=
  if i < l.length then Except.ok (l.set i x) else Except.error "IndexError"

/-- The attribute scan of lines 215-223: `has_dilations` is set when some
`dilations` attribute differs from `[1, 1]`. -/
def hasDilations (n : NodeProto) : Bool :=
  n.attr.any (fun a => a.name == "dilations" && decide (a.ints ≠ [1, 1]))

/-- The attribute scan of lines 215-223: `has_strides` is set when some
`strides` attribute differs from `[1, 1]`. -/
def hasStrides (n : NodeProto) : Bool :=
  n.attr.any (fun a => a.name == "strides" && decide (a.ints ≠ [1, 1]))

/-- The `dilations` variable after the attribute scan: the ints of the
last attribute named `dilations` (each match of the loop overwrites the
variable). -/
def dilationsOf (n : NodeProto) : List Int :=
  n.attr.foldl (fun d a => if a.name == "dilations" then a.ints else d) []

/-- The warning printed on line 225 (`print` joins its arguments with a
space). -/
def warnBothSet (s : String) : String :=
  "Warning: Both strides and dilations are set in  " ++ s

/-- Row-major writes of the tap-copy loops (lines 245-251): one write per
original tap `(b, c, h, w)`, targeting `(b, c, h*d0, w*d1)` in the
`s0 × s1 × H × W` output array. -/
def tapWrites (s0 s1 s2 s3 H W d0 d1 : Nat) (flat : List Rat) :
    List (Nat × Rat) :=
  (List.range s0).flatMap fun b =>
    (List.range s1).flatMap fun c =>
      (List.range s2).flatMap fun h =>
        (List.range s3).map fun w =>
          (((b * s1 + c) * H + h * d0) * W + w * d1,
           flat.getD (((b * s1 + c) * s2 + h) * s3 + w) 0)

/-- The expanded kernel (lines 244-251): a zero array of shape
`[s0, s1, H, W]` in row-major order, with every original tap copied to
its dilated position. -/
def expandWeight (s0 s1 s2 s3 H W d0 d1 : Nat) (flat : List Rat) : List Rat :=
  (tapWrites s0 s1 s2 s3 H W d0 d1 flat).foldl
    (fun a p => a.set p.1 p.2) (List.replicate (s0 * s1 * H * W) 0)

/-- The in-place attribute rewrite of lines 270-276 on one attribute:
`kernel_shape` becomes the new spatial size, `dilations` becomes
`[1, 1]`. -/
def dilatedMutAttr (new2 new3 : Int) (a : AttributeProto) :
    Except String AttributeProto :=
  if a.name = "kernel_shape" then
    match pySet a.ints 0 new2 with
    | Except.error e => Except.error e
    | Except.ok l0 =>
      match pySet l0 1 new3 with
      | Except.error e => Except.error e
      | Except.ok l1 => Except.ok { a with ints := l1 }
  else if a.name = "dilations" then
    match pySet a.ints 0 1 with
    | Except.error e => Except.error e
    | Except.ok l0 =>
      match pySet l0 1 1 with
      | Except.error e => Except.error e
      | Except.ok l1 => Except.ok { a with ints := l1 }
  else Except.ok a

/-- The in-place attribute rewrite of lines 270-276 on the whole
attribute list. -/
def dilatedMutAttrs (new2 new3 : Int) :
    List AttributeProto → Except String (List AttributeProto)
  | [] => Except.ok []
  | a :: tl =>
    match dilatedMutAttr new2 new3 a with
    | Except.error e => Except.error e
    | Except.ok a' =>
      match dilatedMutAttrs new2 new3 tl with
      | Except.error e => Except.error e
      | Except.ok tl' => Except.ok (a' :: tl')

/-- In-place mutation of the first ValueInfo with the given name. -/
def mutateFirstVI : List ValueInfoProto → String →
    (ValueInfoProto → ValueInfoProto) → List ValueInfoProto
  | [], _, _ => []
  | v :: vs, s, f =>
    if v.name == s then f v :: vs else v :: mutateFirstVI vs s f

/-- The ValueInfo shape edit of lines 268-269: dimensions 2 and 3 are
overwritten with the new spatial size (`IndexError` when the recorded
shape is shorter). -/
def dilatedMutVI (new2 new3 : Int) (v : ValueInfoProto) :
    Except String ValueInfoProto :=
  if 3 < v.dim.length then
    Except.ok { v with
      dim := (v.dim.set 2 (Dim.known new2)).set 3 (Dim.known new3) }
  else Except.error "IndexError"

/-- The scan of `replace_dilated_conv`, threading the node list as
processed-prefix plus unprocessed-suffix plus appended constants (the
appended Constant nodes are visited by the Python loop but skipped by
the `Conv` filter).  Warnings printed on line 225 are collected in a
list.  The weight decoding of lines 233-240 reads the typed float data
and falls back to the raw buffer; `np.reshape` fails unless the declared
shape is non-negative and matches the data length, and the kernel
construction of lines 241-251 assumes a rank-4 shape (Python raises for
rank < 4; rank > 4 and negative dilations, where numpy would broadcast
or index from the end, are outside the modelled domain and also mapped
to errors). -/
def dilatedGo :
    List NodeProto → List NodeProto → List NodeProto → List NodeProto →
    List ValueInfoProto → List String →
    Except String
      (List NodeProto × List NodeProto × List NodeProto ×
        List ValueInfoProto × List String)
  | done, [], adds, rms, vi, ws => Except.ok (done, adds, rms, vi, ws)
  | done, n :: rest, adds, rms, vi, ws =>
    if n.op_type = "Conv" then
      if hasDilations n && hasStrides n then
        dilatedGo (done ++ [n]) rest adds rms vi (ws ++ [warnBothSet n.name])
      else if !hasDilations n then
        dilatedGo (done ++ [n]) rest adds rms vi ws
      else
        match pyGet n.input 1 with
        | Except.error e => Except.error e
        | Except.ok s =>
          match findNodeByOutput (done ++ n :: rest ++ adds) s with
          | none => Except.error "AttributeError"
          | some w_node =>
            let w_output := findValueInfo vi s
            match pyGet w_node.attr 0 with
            | Except.error e => Except.error e
            | Except.ok a0 =>
              let shape := a0.t.dims
              let weight :=
                if a0.t.float_data.length = 0 then a0.t.raw_data
                else a0.t.float_data
              if shape.any (fun d => decide (d < 0)) then
                Except.error "ValueError"
              else if weight.length ≠ (shape.map Int.toNat).prod then
                Except.error "ValueError"
              else
                match shape with
                | [s0, s1, s2, s3] =>
                  match pyGet (dilationsOf n) 0 with
                  | Except.error e => Except.error e
                  | Except.ok dil0 =>
                    match pyGet (dilationsOf n) 1 with
                    | Except.error e => Except.error e
                    | Except.ok dil1 =>
                      if dil0 < 0 || dil1 < 0 then Except.error "IndexError"
                      else
                        let new2 : Int := 1 + (s2 - 1) * dil0
                        let new3 : Int := 1 + (s3 - 1) * dil1
                        if new2 < 0 || new3 < 0 then Except.error "ValueError"
                        else
                          let tensor : TensorProto :=
                            { name := a0.t.name, data_type := a0.t.data_type,
                              dims := [s0, s1, new2, new3],
                              float_data := expandWeight s0.toNat s1.toNat
                                s2.toNat s3.toNat new2.toNat new3.toNat
                                dil0.toNat dil1.toNat weight,
                              raw_data := [] }
                          let new_w : NodeProto :=
                            { op_type := "Constant", name := w_node.name,
                              input := [], output := w_node.output,
                              attr := [{ name := "value", t := tensor }] }
                          match w_output with
                          | none => Except.error "AttributeError"
                          | some wo =>
                            match dilatedMutVI new2 new3 wo with
                            | Except.error e => Except.error e
                            | Except.ok wo' =>
                              let vi' := mutateFirstVI vi s (fun _ => wo')
                              match dilatedMutAttrs new2 new3 n.attr with
                              | Except.error e => Except.error e
                              | Except.ok attrs' =>
                                dilatedGo (done ++ [{ n with attr := attrs' }])
                                  rest (adds ++ [new_w]) (rms ++ [w_node])
                                  vi' ws
                | _ => Except.error "IndexError"
    else dilatedGo (done ++ [n]) rest adds rms vi ws

/-- `replace_dilated_conv(g)`, also yielding the collected warnings. -/
def replace_dilated_conv (g : GraphProto) :
    Except String (GraphProto × List String) :=
  match dilatedGo [] g.node [] [] g.value_info [] with
  | Except.error e => Except.error e
  | Except.ok (done, adds, rms, vi, ws) =>
    match pyRemoveAll (done ++ adds) rms with
    | Except.error e => Except.error e
    | Except.ok nodes =>
      Except.ok ({ g with node := nodes, value_info := vi }, ws)

/-! ## `replace_depthwise_1x1_with_bn` (`replacing.py` lines 281-337) -/

/-- The dictionary comprehension of line 292: a by-name attribute lookup
where a later attribute with the same name overwrites an earlier one. -/
def attrMap (n : NodeProto) (s : String) : Option AttributeProto :=
  n.attr.foldl (fun acc a => if a.name == s then some a else acc) none

/-- In-place mutation of the first node producing the given name. -/
def mutateFirstNodeByOutput : List NodeProto → String →
    (NodeProto → NodeProto) → List NodeProto × Bool
  | [], _, _ => ([], false)
  | m :: ms, s, f =>
    if m.output.any (fun o => o == s) then (f m :: ms, true)
    else
      let r := mutateFirstNodeByOutput ms s f
      (m :: r.1, r.2)

/-- In-place mutation of the first producer of `s` across the four
segments of the current node list (processed prefix, current node,
unprocessed suffix, appended nodes). -/
def mutateProducer (done : List NodeProto) (cur : NodeProto)
    (todo adds : List NodeProto) (s : String) (f : NodeProto → NodeProto) :
    List NodeProto × NodeProto × List NodeProto × List NodeProto :=
  let d := mutateFirstNodeByOutput done s f
  if d.2 then (d.1, cur, todo, adds)
  else if cur.output.any (fun o => o == s) then (done, f cur, todo, adds)
  else
    let t := mutateFirstNodeByOutput todo s f
    if t.2 then (done, cur, t.1, adds)
    else (done, cur, todo, (mutateFirstNodeByOutput adds s f).1)

theorem mutateFirstNodeByOutput_length (l : List NodeProto) (s : String)
    (f : NodeProto → NodeProto) :
    (mutateFirstNodeByOutput l s f).1.length = l.length := by
  induction l with
  | nil => rfl
  | cons m ms ih =>
    simp only [mutateFirstNodeByOutput]
    split
    · rfl
    · simp [ih]

theorem mutateProducer_todo_length (done : List NodeProto) (cur : NodeProto)
    (todo adds : List NodeProto) (s : String) (f : NodeProto → NodeProto) :
    ((mutateProducer done cur todo adds s f).2.2.1).length = todo.length := by
  unfold mutateProducer
  by_cases h1 : (mutateFirstNodeByOutput done s f).2
  · simp [h1]
  · by_cases h2 : cur.output.any (fun o => o == s)
    · simp [h1, h2]
    · by_cases h3 : (mutateFirstNodeByOutput todo s f).2
      · simp [h1, h2, h3, mutateFirstNodeByOutput_length]
      · simp [h1, h2, h3]

/-- The three `dims.pop()` calls of lines 303-305 applied to a scale
node: the last three entries of its tensor shape are dropped. -/
def popScaleDims (m : NodeProto) : NodeProto :=
  match m.attr with
  | [] => m
  | a0 :: tl =>
    { m with attr :=
        { a0 with t :=
            { a0.t with dims := a0.t.dims.dropLast.dropLast.dropLast } } :: tl }

/-- The scan of `replace_depthwise_1x1_with_bn`.  The appended
Constant/BatchNormalization nodes are visited by the Python loop but
skipped by the `Conv` filter.  The scale node and its ValueInfo are
mutated in place; the three `pop()` calls of lines 303-305 and 308-310
raise `IndexError` when fewer than three entries remain. -/
def depthwiseGo (g : GraphProto) :
    List NodeProto → List NodeProto → List NodeProto → List NodeProto →
    List ValueInfoProto →
    Except String (List NodeProto × List NodeProto × List NodeProto ×
      List ValueInfoProto)
  | done, [], adds, rms, vi => Except.ok (done, adds, rms, vi)
  | done, n :: rest, adds, rms, vi =>
    if n.op_type = "Conv" then
      match attrMap n "group" with
      | none => depthwiseGo g (done ++ [n]) rest adds rms vi
      | some ga =>
        if ga.i = 1 then depthwiseGo g (done ++ [n]) rest adds rms vi
        else
          match attrMap n "kernel_shape" with
          | none => Except.error "KeyError"
          | some ka =>
            match pyGet ka.ints 0 with
            | Except.error e => Except.error e
            | Except.ok k0 =>
              match pyGet ka.ints 1 with
              | Except.error e => Except.error e
              | Except.ok k1 =>
                if k0 ≠ 1 ∨ k1 ≠ 1 then
                  depthwiseGo g (done ++ [n]) rest adds rms vi
                else
                  match (match attrMap n "pads" with
                         | none => none
                         | some pa =>
                           if pa.ints.sum ≠ 0 then some () else none) with
                  | some _ => depthwiseGo g (done ++ [n]) rest adds rms vi
                  | none =>
                    match pyGet n.input 1 with
                    | Except.error e => Except.error e
                    | Except.ok s =>
                      match findNodeByOutput (done ++ n :: rest ++ adds) s with
                      | none => depthwiseGo g (done ++ [n]) rest adds rms vi
                      | some scale_node =>
                        match pyGet scale_node.attr 0 with
                        | Except.error e => Except.error e
                        | Except.ok sa0 =>
                          match pyGet sa0.t.dims 1 with
                          | Except.error e => Except.error e
                          | Except.ok sd1 =>
                            if sd1 ≠ 1 then
                              depthwiseGo g (done ++ [n]) rest adds rms vi
                            else if sa0.t.dims.length < 3 then
                              Except.error "IndexError"
                            else
                              let seg := mutateProducer done n rest adds s
                                popScaleDims
                              match (match findValueInfo vi s with
                                     | none => Except.ok vi
                                     | some sv =>
                                       if sv.dim.length < 3 then
                                         Except.error "IndexError"
                                       else
                                         Except.ok (mutateFirstVI vi s
                                           (fun v =>
                                             { v with dim :=
                                                 v.dim.dropLast.dropLast.dropLast }))) with
                              | Except.error e => Except.error e
                              | Except.ok vi' =>
                                match pyGet n.input 0 with
                                | Except.error e => Except.error e
                                | Except.ok i0 =>
                                  let G := ga.i
                                  let zeros : List Rat := List.replicate G.toNat 0
                                  let ones : List Rat := List.replicate G.toNat 1
                                  let biasPair :=
                                    if n.input.length = 3 then
                                      (n.input.getD 2 "", ([] : List NodeProto))
                                    else
                                      (n.name ++ "_bias",
                                        [list_to_constant (n.name ++ "_bias")
                                          [G] zeros])
                                  let mean_name := n.name ++ "_mean"
                                  let var_name := n.name ++ "_var"
                                  let mean_node :=
                                    list_to_constant mean_name [G] zeros
                                  let var_node :=
                                    list_to_constant var_name [G] ones
                                  let bn_node : NodeProto :=
                                    { op_type := "BatchNormalization",
                                      name := n.name,
                                      input := [i0, s, biasPair.1, mean_name,
                                        var_name],
                                      output := n.output,
                                      attr := [{ name := "epsilon",
                                                 f := 1 / 100000 },
                                               { name := "momentum",
                                                 f := 9 / 10 }] }
                                  depthwiseGo g (seg.1 ++ [seg.2.1])
                                    seg.2.2.1
                                    (seg.2.2.2 ++ biasPair.2 ++
                                      [mean_node, var_node, bn_node])
                                    (rms ++ [seg.2.1]) vi'
    else depthwiseGo g (done ++ [n]) rest adds rms vi
termination_by _ todo _ _ _ => todo.length
decreasing_by
all_goals simp only [mutateProducer_todo_length, List.length_cons]
all_goals omega

/-- `replace_depthwise_1x1_with_bn(g)`. -/
def replace_depthwise_1x1_with_bn (g : GraphProto) :
    Except String GraphProto :=
  match depthwiseGo g [] g.node [] [] g.value_info with
  | Except.error e => Except.error e
  | Except.ok (done, adds, rms, vi) =>
    match pyRemoveAll (done ++ adds) rms with
    | Except.error e => Except.error e
    | Except.ok nodes =>
      Except.ok (topological_sort { g with node := nodes, value_info := vi })

/-! ## Claim C2: even split -/

/-- A Split node with three outputs, no `split` size attribute, and an
operand of known length 9 along axis 0: the even-split situation of
claim C2. -/
def gEvenSplit : GraphProto :=
  { node := [{ op_type := "Split", name := "sp", input := ["x"],
               output := ["o1", "o2", "o3"],
               attr := [{ name := "axis", i := 0 }] }],
    value_info := [{ name := "x", dim := [Dim.known 9] }] }

/-- C2.  The claim says that for a Split node with no explicit size
attribute and an operand of known length, `replace_split_with_slices`
emits one Slice per output with `start = i*width`, `end = (i+1)*width`
(`width = floor(total/n)`), e.g. `[0,3), [3,6), [6,9)` for length 9 and
3 outputs.  The even-split branch implementing exactly that is dead
code: the guard `split is not []` compares object identity and is always
true, so the pass instead reads `node.attribute[1]` — which does not
exist when only the axis attribute is present — and raises `IndexError`.
This theorem evaluates the pass at that failing input. -/
theorem C2_even_split_raises :
    replace_split_with_slices gEvenSplit = Except.error "IndexError" := by
  rfl

/-! ## Claim C3: output-name stability -/

/-- A Split node with explicit sizes whose attributes are ordered
`[split, axis]` — a legal ONNX attribute ordering. -/
def gSplitAxisLast : GraphProto :=
  { node := [{ op_type := "Split", name := "sp", input := ["x"],
               output := ["o1", "o2"],
               attr := [{ name := "split", ints := [1, 1] },
                        { name := "axis", i := 0 }] }],
    value_info := [{ name := "x", dim := [Dim.known 2] }] }

/-- C3.  The claim says that for every pass, the replacement nodes of a
removed node carry exactly the removed node's output name list.  The
split pass violates this: it reads the size list positionally as
`node.attribute[1]`, so when the attributes are ordered `[split, axis]`
it takes the length of the axis attribute's (empty) ints field, emits
zero Slice nodes, and still removes the Split node — the resulting node
list is empty and nothing produces `o1` or `o2`. -/
theorem C3_output_name_stability_fails :
    replace_split_with_slices gSplitAxisLast =
      Except.ok { gSplitAxisLast with node := [] } ∧
    ∀ g' : GraphProto,
      replace_split_with_slices gSplitAxisLast = Except.ok g' →
      ¬ ∃ n ∈ g'.node, "o1" ∈ n.output := by
  refine ⟨rfl, ?_⟩
  intro g' hg'
  have hg : g' = { gSplitAxisLast with node := [] } := by
    have : (Except.ok { gSplitAxisLast with node := [] } :
        Except String GraphProto) = Except.ok g' := by rw [← hg']; rfl
    cases this
    rfl
  subst hg
  rintro ⟨n, hn, -⟩
  simp at hn

/-! ## Claim C10: shape folding on a graph-input operand -/

/-- A Shape node whose operand is a graph input with a known non-empty
shape, referenced by no other node. -/
def gShapeOnInput : GraphProto :=
  { node := [{ op_type := "Shape", name := "sh", input := ["x"],
               output := ["y"] }],
    input := [{ name := "x", dim := [Dim.known 2, Dim.known 3] }] }

/-- C10.  On a valid graph containing a Shape node whose operand is a
graph input with a non-empty statically known shape and is referenced by
exactly one node, `replace_shape_with_constant` raises: the reference
count is 1, so it calls `g.value_info.remove` on a ValueInfo that lives
in `g.input` rather than `g.value_info`, which raises `ValueError`.  The
graph is left partially mutated: the folded Constant has already been
appended while the Shape node is still present. -/
theorem C10_shape_fold_raises_on_graph_input :
    replace_shape_with_constant gShapeOnInput =
      Except.error ("ValueError",
        { gShapeOnInput with
            node := gShapeOnInput.node ++ [list_to_constant "y" [2] [2, 3]] }) ∧
    ∀ e g', replace_shape_with_constant gShapeOnInput = Except.error (e, g') →
      g' ≠ gShapeOnInput ∧
      (∃ n ∈ g'.node, n.op_type = "Shape") ∧
      (∃ n ∈ g'.node, n.op_type = "Constant") := by
  refine ⟨rfl, ?_⟩
  intro e g' hg'
  have heq : (Except.error ("ValueError",
      { gShapeOnInput with
          node := gShapeOnInput.node ++ [list_to_constant "y" [2] [2, 3]] }) :
      Except (String × GraphProto) (GraphProto × Bool)) =
      Except.error (e, g') := by rw [← hg']; rfl
  cases heq
  decide

/-! ## Claim C4: Squeeze/Unsqueeze shape resolution -/

theorem pyGet_zero_cons {α : Type} (x : α) (l : List α) :
    pyGet (x :: l) 0 = Except.ok x := rfl

/-- Whether the output-shape lookup of lines 96-98 succeeds for a name:
an intermediate ValueInfo or, failing that, a graph output. -/
def shapeResolvable (g : GraphProto) (o : String) : Bool :=
  (find_value_by_name g o).isSome || (find_output_by_name g o).isSome

/-- The resolution expression of lines 96-98 as a single lookup. -/
def resolveOut (g : GraphProto) (o : String) : Option ValueInfoProto :=
  match find_value_by_name g o with
  | some v => some v
  | none => find_output_by_name g o

theorem resolveOut_isSome (g : GraphProto) (o : String) :
    (resolveOut g o).isSome = shapeResolvable g o := by
  unfold resolveOut shapeResolvable
  cases find_value_by_name g o <;> cases find_output_by_name g o <;> simp

/-- The shape constant and Reshape node built for one selected node
(lines 101-109). -/
def squeezeRepl (n : NodeProto) (ov : ValueInfoProto) (i0 : String) :
    List NodeProto :=
  [list_to_constant (n.name ++ "_shape")
      [((ov.dim.map Dim.dim_value).length : Int)]
      ((ov.dim.map Dim.dim_value).map (fun i => (i : Rat))),
   { op_type := "Reshape", name := n.name,
     input := [i0, n.name ++ "_shape"], output := n.output }]

theorem squeezeGo_step_skip (g : GraphProto) (opName : String)
    (n : NodeProto) (rest adds rms : List NodeProto)
    (hop : ¬ n.op_type = opName) :
    squeezeGo g opName (n :: rest) adds rms =
      squeezeGo g opName rest adds rms := by
  simp only [squeezeGo, if_neg hop]

theorem squeezeGo_step_sel (g : GraphProto) (opName : String)
    (n : NodeProto) (rest adds rms : List NodeProto)
    (hop : n.op_type = opName) (o0 : String) (os : List String)
    (houtl : n.output = o0 :: os) (i0 : String) (is : List String)
    (hinl : n.input = i0 :: is) (ov : ValueInfoProto)
    (hov : resolveOut g o0 = some ov) :
    squeezeGo g opName (n :: rest) adds rms =
      squeezeGo g opName rest (adds ++ squeezeRepl n ov i0) (rms ++ [n]) := by
  conv =>
    lhs
    simp only [squeezeGo, if_pos hop, houtl, hinl, pyGet_zero_cons]
  rw [show (match find_value_by_name g o0 with
            | some v => some v
            | none => find_output_by_name g o0) = some ov from hov]
  simp only [squeezeRepl, houtl]

theorem squeezeGo_step_err (g : GraphProto) (opName : String)
    (n : NodeProto) (rest adds rms : List NodeProto)
    (hop : n.op_type = opName) (o0 : String) (os : List String)
    (houtl : n.output = o0 :: os)
    (hov : resolveOut g o0 = none) :
    squeezeGo g opName (n :: rest) adds rms =
      Except.error ("Cannot get shape for " ++ opName) := by
  conv =>
    lhs
    simp only [squeezeGo, if_pos hop, houtl, pyGet_zero_cons]
  rw [show (match find_value_by_name g o0 with
            | some v => some v
            | none => find_output_by_name g o0) = none from hov]

/-- Scan lemma: when every node of the scanned kind is well-formed and
one of them has an unresolvable output shape, the scan raises the fatal
"cannot determine output shape" condition. -/
theorem squeezeGo_error (g : GraphProto) (opName : String)
    (todo : List NodeProto)
    (hwf : ∀ n ∈ todo, n.op_type = opName → n.input ≠ [] ∧ n.output ≠ [])
    (hbad : ∃ n ∈ todo, n.op_type = opName ∧
      ∃ o, n.output.get? 0 = some o ∧ shapeResolvable g o = false) :
    ∀ adds rms, squeezeGo g opName todo adds rms =
      Except.error ("Cannot get shape for " ++ opName) := by
  induction todo with
  | nil => simp at hbad
  | cons n rest ih =>
    intro adds rms
    obtain ⟨m, hm, hmop, o, ho, hor⟩ := hbad
    by_cases hop : n.op_type = opName
    · obtain ⟨hi, hout⟩ := hwf n (List.mem_cons_self n rest) hop
      cases houtl : n.output with
      | nil => exact absurd houtl hout
      | cons o0 os =>
        cases hres : resolveOut g o0 with
        | none =>
          exact squeezeGo_step_err g opName n rest adds rms hop o0 os houtl hres
        | some ov =>
          cases hinl : n.input with
          | nil => exact absurd hinl hi
          | cons i0 is =>
            rw [squeezeGo_step_sel g opName n rest adds rms hop o0 os houtl
              i0 is hinl ov hres]
            have hmr : m ∈ rest := by
              rcases List.mem_cons.mp hm with h1 | h2
              · exfalso
                subst h1
                rw [houtl] at ho
                cases ho
                have := resolveOut_isSome g o
                rw [hres, hor] at this
                cases this
              · exact h2
            exact ih (fun x hx => hwf x (List.mem_cons_of_mem n hx))
              ⟨m, hmr, hmop, o, ho, hor⟩ _ _
    · rw [squeezeGo_step_skip g opName n rest adds rms hop]
      have hmr : m ∈ rest := by
        rcases List.mem_cons.mp hm with h1 | h2
        · exact absurd (h1 ▸ hmop) hop
        · exact h2
      exact ih (fun x hx => hwf x (List.mem_cons_of_mem n hx))
        ⟨m, hmr, hmop, o, ho, hor⟩ _ _

/-- Scan lemma: when every node of the scanned kind is well-formed and
has a resolvable output shape, the scan completes and marks for removal
exactly the nodes of that kind. -/
theorem squeezeGo_ok (g : GraphProto) (opName : String)
    (todo : List NodeProto)
    (hwf : ∀ n ∈ todo, n.op_type = opName → n.input ≠ [] ∧ n.output ≠ [])
    (hres : ∀ n ∈ todo, n.op_type = opName →
      ∀ o, n.output.get? 0 = some o → shapeResolvable g o = true) :
    ∀ adds rms, ∃ adds', squeezeGo g opName todo adds rms =
      Except.ok (adds', rms ++ todo.filter (fun n => n.op_type == opName)) := by
  induction todo with
  | nil =>
    intro adds rms
    exact ⟨adds, by simp [squeezeGo]⟩
  | cons n rest ih =>
    intro adds rms
    by_cases hop : n.op_type = opName
    · obtain ⟨hi, hout⟩ := hwf n (List.mem_cons_self n rest) hop
      cases houtl : n.output with
      | nil => exact absurd houtl hout
      | cons o0 os =>
        have hr := hres n (List.mem_cons_self n rest) hop o0 (by rw [houtl]; rfl)
        cases hresolved : resolveOut g o0 with
        | none =>
          exfalso
          have := resolveOut_isSome g o0
          rw [hresolved, hr] at this
          cases this
        | some ov =>
          cases hinl : n.input with
          | nil => exact absurd hinl hi
          | cons i0 is =>
            obtain ⟨adds', ha⟩ :=
              ih (fun x hx => hwf x (List.mem_cons_of_mem n hx))
                (fun x hx => hres x (List.mem_cons_of_mem n hx))
                (adds ++ squeezeRepl n ov i0) (rms ++ [n])
            refine ⟨adds', ?_⟩
            rw [squeezeGo_step_sel g opName n rest adds rms hop o0 os houtl
              i0 is hinl ov hresolved, ha]
            have : (n :: rest).filter (fun n => n.op_type == opName) =
                n :: rest.filter (fun n => n.op_type == opName) := by
              simp [List.filter_cons, hop]
            rw [this]
            simp
    · obtain ⟨adds', ha⟩ :=
        ih (fun x hx => hwf x (List.mem_cons_of_mem n hx))
          (fun x hx => hres x (List.mem_cons_of_mem n hx)) adds rms
      refine ⟨adds', ?_⟩
      rw [squeezeGo_step_skip g opName n rest adds rms hop, ha]
      have : (n :: rest).filter (fun n => n.op_type == opName) =
          rest.filter (fun n => n.op_type == opName) := by
        simp [List.filter_cons, hop]
      rw [this]

/-- C4.  On a graph whose Squeeze (resp. Unsqueeze) nodes each have an
input and an output, the pass raises the fatal
"Cannot get shape" error whenever some Squeeze (resp. Unsqueeze) output
shape resolves neither as an intermediate ValueInfo nor as a graph
output — it never silently skips such a node — and completes without
error whenever every such output shape resolves. -/
theorem C4_squeeze_unsqueeze_fatal_on_unresolvable :
    (∀ g : GraphProto,
      (∀ n ∈ g.node, n.op_type = "Squeeze" → n.input ≠ [] ∧ n.output ≠ []) →
      (∃ n ∈ g.node, n.op_type = "Squeeze" ∧
        ∃ o, n.output.get? 0 = some o ∧ shapeResolvable g o = false) →
      replace_Squeeze_with_Reshape g =
        Except.error "Cannot get shape for Squeeze") ∧
    (∀ g : GraphProto,
      (∀ n ∈ g.node, n.op_type = "Squeeze" → n.input ≠ [] ∧ n.output ≠ []) →
      (∀ n ∈ g.node, n.op_type = "Squeeze" →
        ∀ o, n.output.get? 0 = some o → shapeResolvable g o = true) →
      ∃ g', replace_Squeeze_with_Reshape g = Except.ok g') ∧
    (∀ g : GraphProto,
      (∀ n ∈ g.node, n.op_type = "Unsqueeze" → n.input ≠ [] ∧ n.output ≠ []) →
      (∃ n ∈ g.node, n.op_type = "Unsqueeze" ∧
        ∃ o, n.output.get? 0 = some o ∧ shapeResolvable g o = false) →
      replace_Unsqueeze_with_Reshape g =
        Except.error "Cannot get shape for Unsqueeze") ∧
    (∀ g : GraphProto,
      (∀ n ∈ g.node, n.op_type = "Unsqueeze" → n.input ≠ [] ∧ n.output ≠ []) →
      (∀ n ∈ g.node, n.op_type = "Unsqueeze" →
        ∀ o, n.output.get? 0 = some o → shapeResolvable g o = true) →
      ∃ g', replace_Unsqueeze_with_Reshape g = Except.ok g') := by
  refine ⟨?_, ?_, ?_, ?_⟩
  · intro g hwf hbad
    unfold replace_Squeeze_with_Reshape
    rw [squeezeGo_error g "Squeeze" g.node hwf hbad [] []]
    rfl
  · intro g hwf hres
    obtain ⟨adds', ha⟩ := squeezeGo_ok g "Squeeze" g.node hwf hres [] []
    unfold replace_Squeeze_with_Reshape
    rw [ha]
    have hrm := pyRemoveAll_filter g.node adds'
      (fun n => n.op_type == "Squeeze")
    simp only [List.nil_append]
    rw [hrm]
    exact ⟨_, rfl⟩
  · intro g hwf hbad
    unfold replace_Unsqueeze_with_Reshape
    rw [squeezeGo_error g "Unsqueeze" g.node hwf hbad [] []]
    rfl
  · intro g hwf hres
    obtain ⟨adds', ha⟩ := squeezeGo_ok g "Unsqueeze" g.node hwf hres [] []
    unfold replace_Unsqueeze_with_Reshape
    rw [ha]
    have hrm := pyRemoveAll_filter g.node adds'
      (fun n => n.op_type == "Unsqueeze")
    simp only [List.nil_append]
    rw [hrm]
    exact ⟨_, rfl⟩

/-- A Squeeze node with no resolvable output shape, and one with a
resolvable output shape; likewise for Unsqueeze. -/
def gSqueezeBad : GraphProto :=
  { node := [{ op_type := "Squeeze", name := "q", input := ["a"],
               output := ["b"] }] }

def gSqueezeGood : GraphProto :=
  { node := [{ op_type := "Squeeze", name := "q", input := ["a"],
               output := ["b"] }],
    value_info := [{ name := "b", dim := [Dim.known 2] }] }

def gUnsqueezeBad : GraphProto :=
  { node := [{ op_type := "Unsqueeze", name := "q", input := ["a"],
               output := ["b"] }] }

def gUnsqueezeGood : GraphProto :=
  { node := [{ op_type := "Unsqueeze", name := "q", input := ["a"],
               output := ["b"] }],
    value_info := [{ name := "b", dim := [Dim.known 1, Dim.known 2] }] }

/-- Witness for C4 at concrete graphs. -/
theorem C4_squeeze_unsqueeze_fatal_on_unresolvable_witness :
    replace_Squeeze_with_Reshape gSqueezeBad =
      Except.error "Cannot get shape for Squeeze" ∧
    (∃ g', replace_Squeeze_with_Reshape gSqueezeGood = Except.ok g') ∧
    replace_Unsqueeze_with_Reshape gUnsqueezeBad =
      Except.error "Cannot get shape for Unsqueeze" ∧
    (∃ g', replace_Unsqueeze_with_Reshape gUnsqueezeGood = Except.ok g') := by
  obtain ⟨h1, h2, h3, h4⟩ := C4_squeeze_unsqueeze_fatal_on_unresolvable
  refine ⟨?_, ?_, ?_, ?_⟩
  · exact h1 gSqueezeBad (by decide)
      ⟨{ op_type := "Squeeze", name := "q", input := ["a"], output := ["b"] },
        by decide, rfl, "b", rfl, by decide⟩
  · exact h2 gSqueezeGood (by decide)
      (by
        intro n hn hop o ho
        simp only [gSqueezeGood, List.mem_singleton] at hn
        subst hn
        obtain rfl : o = "b" := (Option.some.inj ho).symm
        decide)
  · exact h3 gUnsqueezeBad (by decide)
      ⟨{ op_type := "Unsqueeze", name := "q", input := ["a"], output := ["b"] },
        by decide, rfl, "b", rfl, by decide⟩
  · exact h4 gUnsqueezeGood (by decide)
      (by
        intro n hn hop o ho
        simp only [gUnsqueezeGood, List.mem_singleton] at hn
        subst hn
        obtain rfl : o = "b" := (Option.some.inj ho).symm
        decide)

/-! ## Claims C6 and C7: shape constant folding -/

/-- The operand lookup of lines 352-354: intermediate ValueInfo first,
then graph input. -/
def shapeResolveOperand (g : GraphProto) (s : String) : Option ValueInfoProto :=
  match find_value_by_name g s with
  | some v => some v
  | none => find_input_by_name g s

/-- Whether `replace_shape_with_constant` folds a given node, phrased
over the original graph: the node is a Shape node whose operand resolves
to a ValueInfo with a non-empty dimension list.  (No dimension has to be
statically known.) -/
def shapeSelected (g : GraphProto) (n : NodeProto) : Bool :=
  n.op_type == "Shape" &&
    (match n.input.get? 0 with
     | none => false
     | some s =>
       match shapeResolveOperand g s with
       | none => false
       | some iv => !(iv.dim.length == 0))

/-- The reference count of line 368 restricted to a node list whose
members have real inputs: the number of nodes whose input list mentions
the name. -/
def refCount (nodes : List NodeProto) (s : String) : Nat :=
  nodes.countP (fun m => decide (s ∈ m.input))

theorem refCount_append (l₁ l₂ : List NodeProto) (s : String) :
    refCount (l₁ ++ l₂) s = refCount l₁ s + refCount l₂ s := by
  simp [refCount, List.countP_append]

theorem refCount_of_no_input (l : List NodeProto) (s : String)
    (h : ∀ a ∈ l, a.input = []) : refCount l s = 0 := by
  induction l with
  | nil => rfl
  | cons a tl ih =>
    have ha := h a (List.mem_cons_self a tl)
    have htl := ih (fun x hx => h x (List.mem_cons_of_mem a hx))
    simp only [refCount, List.countP_cons] at htl ⊢
    rw [ha, htl]
    simp

theorem findValueInfo_name_mem {vis : List ValueInfoProto} {s : String}
    {v : ValueInfoProto} (h : findValueInfo vis s = some v) :
    v.name = s ∧ v ∈ vis := by
  refine ⟨?_, List.mem_of_find?_eq_some h⟩
  have := List.find?_some h
  simpa using this

theorem findValueInfo_none_iff {vis : List ValueInfoProto} {s : String} :
    findValueInfo vis s = none ↔ ∀ v ∈ vis, v.name ≠ s := by
  unfold findValueInfo
  rw [List.find?_eq_none]
  constructor
  · intro h v hv
    have := h v hv
    simpa using this
  · intro h v hv
    simpa using h v hv

/-- With pairwise distinct names, two entries with equal names are the
same entry. -/
theorem vi_name_unique {l : List ValueInfoProto}
    (h : (l.map (fun v => v.name)).Nodup) :
    ∀ x ∈ l, ∀ y ∈ l, x.name = y.name → x = y := by
  induction l with
  | nil => simp
  | cons a tl ih =>
    simp only [List.map_cons, List.nodup_cons] at h
    intro x hx y hy hxy
    rcases List.mem_cons.mp hx with hxa | hx
    · rcases List.mem_cons.mp hy with hya | hy
      · rw [hxa, hya]
      · exfalso
        apply h.1
        rw [← hxa, hxy]
        exact List.mem_map_of_mem (fun v => v.name) hy
    · rcases List.mem_cons.mp hy with hya | hy
      · exfalso
        apply h.1
        rw [← hya, ← hxy]
        exact List.mem_map_of_mem (fun v => v.name) hx
      · exact ih h.2 x hx y hy hxy

theorem find?_of_unique {α : Type} {p : α → Bool} {l : List α} {v : α}
    (hv : v ∈ l) (hp : p v = true)
    (huniq : ∀ x ∈ l, p x = true → x = v) : l.find? p = some v := by
  induction l with
  | nil => simp at hv
  | cons a tl ih =>
    rcases List.mem_cons.mp hv with rfl | hvm
    · simp [List.find?_cons, hp]
    · by_cases hpa : p a = true
      · have : a = v := huniq a (List.mem_cons_self a tl) hpa
        subst this
        simp [List.find?_cons, hpa]
      · rw [List.find?_cons_of_neg _ (by simpa using hpa)]
        exact ih hvm (fun x hx hpx => huniq x (List.mem_cons_of_mem a hx) hpx)

/-- Looking a name up in a sub-list of a name-distinct ValueInfo list:
the result of the full list is found exactly when it is still in the
sub-list. -/
theorem findValueInfo_sublist {vis vis' : List ValueInfoProto} {s : String}
    (hnd : (vis.map (fun v => v.name)).Nodup) (hsub : vis'.Sublist vis) :
    findValueInfo vis' s =
      match findValueInfo vis s with
      | none => none
      | some v => if v ∈ vis' then some v else none := by
  cases hfull : findValueInfo vis s with
  | none =>
    rw [findValueInfo_none_iff] at hfull ⊢
    exact fun v hv => hfull v (hsub.subset hv)
  | some v =>
    obtain ⟨hname, hmem⟩ := findValueInfo_name_mem hfull
    by_cases hv' : v ∈ vis'
    · simp only [if_pos hv']
      refine find?_of_unique hv' (by simp [hname]) ?_
      intro x hx hpx
      have hxname : x.name = s := by simpa using hpx
      exact vi_name_unique hnd x (hsub.subset hx) v hmem (hxname.trans hname.symm)
    · simp only [if_neg hv']
      rw [findValueInfo_none_iff]
      intro w hw hwname
      have : w = v :=
        vi_name_unique hnd w (hsub.subset hw) v hmem (hwname.trans hname.symm)
      exact hv' (this ▸ hw)

theorem shapeGo_step_notshape (g : GraphProto) (n : NodeProto)
    (rest adds rms : List NodeProto) (vi : List ValueInfoProto)
    (hop : ¬ n.op_type = "Shape") :
    shapeGo g (n :: rest) adds rms vi = shapeGo g rest adds rms vi := by
  simp only [shapeGo, if_neg hop]

theorem shapeGo_step_unres (g : GraphProto) (n : NodeProto)
    (rest adds rms : List NodeProto) (vi : List ValueInfoProto) (s : String)
    (hop : n.op_type = "Shape") (hs : n.input.get? 0 = some s)
    (hres : (match findValueInfo vi s with
             | some v => some v
             | none => find_input_by_name g s) = none) :
    shapeGo g (n :: rest) adds rms vi = shapeGo g rest adds rms vi := by
  simp only [shapeGo, if_pos hop, pyGet_eq_ok.mpr hs]
  rw [hres]

theorem shapeGo_step_emptydim (g : GraphProto) (n : NodeProto)
    (rest adds rms : List NodeProto) (vi : List ValueInfoProto) (s : String)
    (iv : ValueInfoProto)
    (hop : n.op_type = "Shape") (hs : n.input.get? 0 = some s)
    (hres : (match findValueInfo vi s with
             | some v => some v
             | none => find_input_by_name g s) = some iv)
    (hdim : iv.dim.length = 0) :
    shapeGo g (n :: rest) adds rms vi = shapeGo g rest adds rms vi := by
  simp only [shapeGo, if_pos hop, pyGet_eq_ok.mpr hs]
  rw [hres]
  simp only [if_pos hdim]

theorem shapeGo_step_sel (g : GraphProto) (n : NodeProto)
    (rest adds rms : List NodeProto) (vi : List ValueInfoProto) (s : String)
    (iv : ValueInfoProto) (o : String)
    (hop : n.op_type = "Shape") (hs : n.input.get? 0 = some s)
    (hres : (match findValueInfo vi s with
             | some v => some v
             | none => find_input_by_name g s) = some iv)
    (hdim : ¬ iv.dim.length = 0) (ho : n.output.get? 0 = some o) :
    shapeGo g (n :: rest) adds rms vi =
      (let new_node := list_to_constant o
        [((iv.dim.map Dim.dim_value).length : Int)]
        ((iv.dim.map Dim.dim_value).map (fun x => (x : Rat)))
      let adds' := adds ++ [new_node]
      if (g.node ++ adds').countP (fun m => decide (iv.name ∈ m.input)) = 1 then
        match pyRemove vi iv with
        | Except.error e =>
          Except.error (e, { g with node := g.node ++ adds', value_info := vi })
        | Except.ok vi' => shapeGo g rest adds' (rms ++ [n]) vi'
      else shapeGo g rest adds' (rms ++ [n]) vi) := by
  simp only [shapeGo, if_pos hop, pyGet_eq_ok.mpr hs]
  rw [hres]
  simp only [if_neg hdim, pyGet_eq_ok.mpr ho]

/-- Two distinct node occurrences referencing a name force a reference
count of at least two. -/
theorem refCount_ge_two (pre rest : List NodeProto) (n m : NodeProto)
    (s : String) (hm : m ∈ pre) (hms : s ∈ m.input) (hns : s ∈ n.input) :
    2 ≤ refCount (pre ++ n :: rest) s := by
  have h1 : 0 < refCount pre s := by
    simp only [refCount, List.countP_pos]
    exact ⟨m, hm, by simpa using hms⟩
  have h2 : 0 < refCount (n :: rest) s := by
    simp only [refCount, List.countP_pos]
    exact ⟨n, List.mem_cons_self n rest, by simpa using hns⟩
  have := refCount_append pre (n :: rest) s
  omega

/-- Full behaviour of the shape-folding scan on a successful run,
relative to the original graph: the removed nodes are exactly the
selected Shape nodes, the folded constant of every selected node is
appended, and an operand ValueInfo disappears exactly when its reference
count is one. -/
theorem shapeGo_spec (g : GraphProto)
    (W1 : (g.value_info.map (fun v => v.name)).Nodup)
    (W2 : ∀ v ∈ g.input, ∀ w ∈ g.value_info, v.name ≠ w.name) :
    ∀ (todo pre adds rms : List NodeProto) (vi : List ValueInfoProto)
      (res : List NodeProto × List NodeProto × List ValueInfoProto),
    g.node = pre ++ todo →
    (∀ a ∈ adds, a.input = []) →
    vi.Sublist g.value_info →
    (∀ v ∈ g.value_info, v ∉ vi →
      refCount g.node v.name = 1 ∧ ∃ m ∈ pre, v.name ∈ m.input) →
    shapeGo g todo adds rms vi = Except.ok res →
    res.2.1 = rms ++ todo.filter (shapeSelected g) ∧
    (∀ a ∈ res.1, a ∈ adds ∨ a.input = []) ∧
    (∀ a ∈ adds, a ∈ res.1) ∧
    res.2.2.Sublist vi ∧
    (∀ n ∈ todo, ∀ s iv, n.op_type = "Shape" → n.input.get? 0 = some s →
      find_value_by_name g s = some iv → iv.dim.length ≠ 0 →
      refCount g.node s = 1 → iv ∉ res.2.2) ∧
    (∀ v ∈ vi, refCount g.node v.name ≠ 1 → v ∈ res.2.2) ∧
    (∀ n ∈ todo, ∀ s iv o, n.op_type = "Shape" → n.input.get? 0 = some s →
      shapeResolveOperand g s = some iv → iv.dim.length ≠ 0 →
      n.output.get? 0 = some o →
      list_to_constant o [((iv.dim.map Dim.dim_value).length : Int)]
        ((iv.dim.map Dim.dim_value).map (fun x => (x : Rat))) ∈ res.1) := by
  intro todo
  induction todo with
  | nil =>
    intro pre adds rms vi res hsplit hadds hsub hmiss hok
    simp only [shapeGo] at hok
    cases hok
    refine ⟨by simp, fun a ha => Or.inl ha, fun a ha => ha,
      List.Sublist.refl vi, by simp, fun v hv _ => hv, by simp⟩
  | cons n rest ih =>
    intro pre adds rms vi res hsplit hadds hsub hmiss hok
    by_cases hop : n.op_type = "Shape"
    · cases hpg : n.input.get? 0 with
      | none =>
        exfalso
        have hpge : pyGet n.input 0 = Except.error "IndexError" := by
          unfold pyGet
          rw [hpg]
        simp only [shapeGo, if_pos hop, hpge] at hok
        exact Except.noConfusion hok
      | some s =>
        have hsmem : s ∈ n.input := by
          have := List.get?_mem hpg
          exact this
        -- the current lookup agrees with the lookup in the original graph
        cases horig : find_value_by_name g s with
        | some iv0 =>
          have hivvi : iv0 ∈ vi := by
            by_contra hnot
            obtain ⟨hrc, m, hm, hms⟩ :=
              hmiss iv0 (findValueInfo_name_mem horig).2 hnot
            have hname : iv0.name = s := (findValueInfo_name_mem horig).1
            rw [hname] at hrc hms
            have h2 := refCount_ge_two pre rest n m s hm hms hsmem
            rw [← hsplit] at h2
            omega
          have hcur : findValueInfo vi s = some iv0 := by
            rw [findValueInfo_sublist W1 hsub]
            have : findValueInfo g.value_info s = some iv0 := horig
            rw [this]
            simp [hivvi]
          have hresolve :
              (match findValueInfo vi s with
               | some v => some v
               | none => find_input_by_name g s) = some iv0 := by
            rw [hcur]
          have hselres : shapeResolveOperand g s = some iv0 := by
            unfold shapeResolveOperand
            rw [horig]
          by_cases hdim : iv0.dim.length = 0
          · -- empty recorded shape: the node is skipped
            rw [shapeGo_step_emptydim g n rest adds rms vi s iv0 hop hpg
              hresolve hdim] at hok
            have hpn : shapeSelected g n = false := by
              simp only [shapeSelected, hpg, hselres, hdim]
              simp
            obtain ⟨c1, c2, c3, c4, c5, c6, c7⟩ :=
              ih (pre ++ [n]) adds rms vi res (by simp [hsplit]) hadds hsub
                (fun v hv hnv =>
                  ⟨(hmiss v hv hnv).1, by
                    obtain ⟨-, m, hm, hms⟩ := hmiss v hv hnv
                    exact ⟨m, List.mem_append.mpr (Or.inl hm), hms⟩⟩) hok
            refine ⟨by rw [c1]; simp [List.filter_cons, hpn], c2, c3, c4,
              ?_, c6, ?_⟩
            · intro n' hn' s' iv' hop' hs' hf' hd' hrc'
              rcases List.mem_cons.mp hn' with rfl | hn'
              · rw [hpg] at hs'
                cases hs'
                rw [horig] at hf'
                cases hf'
                exact absurd hdim hd'
              · exact c5 n' hn' s' iv' hop' hs' hf' hd' hrc'
            · intro n' hn' s' iv' o' hop' hs' hr' hd' ho'
              rcases List.mem_cons.mp hn' with rfl | hn'
              · rw [hpg] at hs'
                cases hs'
                rw [hselres] at hr'
                cases hr'
                exact absurd hdim hd'
              · exact c7 n' hn' s' iv' o' hop' hs' hr' hd' ho'
          · -- the node is selected
            cases hpo : n.output.get? 0 with
            | none =>
              exfalso
              have hpoe : pyGet n.output 0 = Except.error "IndexError" := by
                unfold pyGet
                rw [hpo]
              simp only [shapeGo, if_pos hop, pyGet_eq_ok.mpr hpg] at hok
              rw [hresolve] at hok
              simp only [if_neg hdim, hpoe] at hok
              exact Except.noConfusion hok
            | some o =>
              rw [shapeGo_step_sel g n rest adds rms vi s iv0 o hop hpg
                hresolve hdim hpo] at hok
              simp only [] at hok
              have hpn : shapeSelected g n = true := by
                simp only [shapeSelected, hpg, hselres]
                simp [hop, hdim]
              have hname : iv0.name = s := (findValueInfo_name_mem horig).1
              set cnode := list_to_constant o
                [((iv0.dim.map Dim.dim_value).length : Int)]
                ((iv0.dim.map Dim.dim_value).map (fun x => (x : Rat))) with hc
              have hadds' : ∀ a ∈ adds ++ [cnode], a.input = [] := by
                intro a ha
                rcases List.mem_append.mp ha with h1 | h2
                · exact hadds a h1
                · rw [List.mem_singleton.mp h2]
                  rfl
              have hused : (g.node ++ (adds ++ [cnode])).countP
                  (fun m => decide (iv0.name ∈ m.input)) = refCount g.node s := by
                have : refCount (g.node ++ (adds ++ [cnode])) iv0.name =
                    refCount g.node iv0.name +
                      refCount (adds ++ [cnode]) iv0.name :=
                  refCount_append _ _ _
                have hz : refCount (adds ++ [cnode]) iv0.name = 0 :=
                  refCount_of_no_input _ _ hadds'
                simp only [refCount] at this hz ⊢
                rw [this, hz, hname]
                omega
              by_cases hrc : refCount g.node s = 1
              · -- reference count one: the ValueInfo is removed
                rw [if_pos (hused.trans hrc)] at hok
                cases hpr : pyRemove vi iv0 with
                | error e =>
                  rw [hpr] at hok
                  cases hok
                | ok vi' =>
                  rw [hpr] at hok
                  have hndvi : vi.Nodup := (List.Nodup.of_map _ W1).sublist hsub
                  have hsub' : vi'.Sublist vi := pyRemove_sublist hpr
                  have hout : iv0 ∉ vi' := pyRemove_not_mem_result hpr hndvi
                  obtain ⟨c1, c2, c3, c4, c5, c6, c7⟩ :=
                    ih (pre ++ [n]) (adds ++ [cnode]) (rms ++ [n]) vi' res
                      (by simp [hsplit]) hadds' (hsub'.trans hsub)
                      (fun v hv hnv => by
                        by_cases hviv : v ∈ vi
                        · have : v = iv0 := pyRemove_eq_diff hpr hviv hnv
                          subst this
                          exact ⟨hname ▸ hrc,
                            n, List.mem_append.mpr (Or.inr (by simp)),
                            hname ▸ hsmem⟩
                        · obtain ⟨h1, m, hm, hms⟩ := hmiss v hv hviv
                          exact ⟨h1, m, List.mem_append.mpr (Or.inl hm), hms⟩)
                      hok
                  refine ⟨by rw [c1]; simp [List.filter_cons, hpn],
                    fun a ha => ?_, fun a ha => c3 a (by simp [ha]), 
                    c4.trans hsub', ?_, ?_, ?_⟩
                  · rcases c2 a ha with h1 | h2
                    · rcases List.mem_append.mp h1 with h3 | h4
                      · exact Or.inl h3
                      · right
                        rw [List.mem_singleton.mp h4]
                        rfl
                    · exact Or.inr h2
                  · intro n' hn' s' iv' hop' hs' hf' hd' hrc'
                    rcases List.mem_cons.mp hn' with rfl | hn'
                    · rw [hpg] at hs'
                      cases hs'
                      rw [horig] at hf'
                      cases hf'
                      intro hmem
                      exact hout (c4.subset hmem)
                    · exact c5 n' hn' s' iv' hop' hs' hf' hd' hrc'
                  · intro v hv hvrc
                    have hvne : v ≠ iv0 := by
                      intro hveq
                      subst hveq
                      rw [hname] at hvrc
                      exact hvrc hrc
                    exact c6 v (pyRemove_mem_of_ne hpr hv hvne) hvrc
                  · intro n' hn' s' iv' o' hop' hs' hr' hd' ho'
                    rcases List.mem_cons.mp hn' with rfl | hn'
                    · rw [hpg] at hs'
                      cases hs'
                      rw [hselres] at hr'
                      cases hr'
                      rw [hpo] at ho'
                      cases ho'
                      exact c3 cnode (by simp)
                    · exact c7 n' hn' s' iv' o' hop' hs' hr' hd' ho'
              · -- reference count not one: the ValueInfo is retained
                rw [if_neg (fun h => hrc (hused.symm.trans h))] at hok
                obtain ⟨c1, c2, c3, c4, c5, c6, c7⟩ :=
                  ih (pre ++ [n]) (adds ++ [cnode]) (rms ++ [n]) vi res
                    (by simp [hsplit]) hadds' hsub
                    (fun v hv hnv => by
                      obtain ⟨h1, m, hm, hms⟩ := hmiss v hv hnv
                      exact ⟨h1, m, List.mem_append.mpr (Or.inl hm), hms⟩)
                    hok
                refine ⟨by rw [c1]; simp [List.filter_cons, hpn],
                  fun a ha => ?_, fun a ha => c3 a (by simp [ha]), c4, ?_,
                  c6, ?_⟩
                · rcases c2 a ha with h1 | h2
                  · rcases List.mem_append.mp h1 with h3 | h4
                    · exact Or.inl h3
                    · right
                      rw [List.mem_singleton.mp h4]
                      rfl
                  · exact Or.inr h2
                · intro n' hn' s' iv' hop' hs' hf' hd' hrc'
                  rcases List.mem_cons.mp hn' with rfl | hn'
                  · rw [hpg] at hs'
                    cases hs'
                    rw [horig] at hf'
                    cases hf'
                    exact absurd hrc' hrc
                  · exact c5 n' hn' s' iv' hop' hs' hf' hd' hrc'
                · intro n' hn' s' iv' o' hop' hs' hr' hd' ho'
                  rcases List.mem_cons.mp hn' with rfl | hn'
                  · rw [hpg] at hs'
                    cases hs'
                    rw [hselres] at hr'
                    cases hr'
                    rw [hpo] at ho'
                    cases ho'
                    exact c3 cnode (by simp)
                  · exact c7 n' hn' s' iv' o' hop' hs' hr' hd' ho'
        | none =>
          have hcur : findValueInfo vi s = none := by
            rw [findValueInfo_sublist W1 hsub]
            have : findValueInfo g.value_info s = none := horig
            rw [this]
          cases hin : find_input_by_name g s with
          | none =>
            have hresolve :
                (match findValueInfo vi s with
                 | some v => some v
                 | none => find_input_by_name g s) = none := by
              rw [hcur, hin]
            rw [shapeGo_step_unres g n rest adds rms vi s hop hpg hresolve]
              at hok
            have hpn : shapeSelected g n = false := by
              have hro : shapeResolveOperand g s = none := by
                unfold shapeResolveOperand
                rw [horig, hin]
              unfold shapeSelected
              rw [hpg]
              show (n.op_type == "Shape" &&
                (match shapeResolveOperand g s with
                 | none => false
                 | some iv => !(iv.dim.length == 0))) = false
              rw [hro]
              simp
            obtain ⟨c1, c2, c3, c4, c5, c6, c7⟩ :=
              ih (pre ++ [n]) adds rms vi res (by simp [hsplit]) hadds hsub
                (fun v hv hnv => by
                  obtain ⟨h1, m, hm, hms⟩ := hmiss v hv hnv
                  exact ⟨h1, m, List.mem_append.mpr (Or.inl hm), hms⟩) hok
            refine ⟨by rw [c1]; simp [List.filter_cons, hpn], c2, c3, c4,
              ?_, c6, ?_⟩
            · intro n' hn' s' iv' hop' hs' hf' hd' hrc'
              rcases List.mem_cons.mp hn' with rfl | hn'
              · rw [hpg] at hs'
                cases hs'
                rw [horig] at hf'
                cases hf'
              · exact c5 n' hn' s' iv' hop' hs' hf' hd' hrc'
            · intro n' hn' s' iv' o' hop' hs' hr' hd' ho'
              rcases List.mem_cons.mp hn' with rfl | hn'
              · rw [hpg] at hs'
                cases hs'
                unfold shapeResolveOperand at hr'
                rw [horig, hin] at hr'
                cases hr'
              · exact c7 n' hn' s' iv' o' hop' hs' hr' hd' ho'
          | some iv0 =>
            have hresolve :
                (match findValueInfo vi s with
                 | some v => some v
                 | none => find_input_by_name g s) = some iv0 := by
              rw [hcur, hin]
            have hselres : shapeResolveOperand g s = some iv0 := by
              unfold shapeResolveOperand
              rw [horig, hin]
            by_cases hdim : iv0.dim.length = 0
            · rw [shapeGo_step_emptydim g n rest adds rms vi s iv0 hop hpg
                hresolve hdim] at hok
              have hpn : shapeSelected g n = false := by
                simp only [shapeSelected, hpg, hselres, hdim]
                simp
              obtain ⟨c1, c2, c3, c4, c5, c6, c7⟩ :=
                ih (pre ++ [n]) adds rms vi res (by simp [hsplit]) hadds hsub
                  (fun v hv hnv => by
                    obtain ⟨h1, m, hm, hms⟩ := hmiss v hv hnv
                    exact ⟨h1, m, List.mem_append.mpr (Or.inl hm), hms⟩) hok
              refine ⟨by rw [c1]; simp [List.filter_cons, hpn], c2, c3, c4,
                ?_, c6, ?_⟩
              · intro n' hn' s' iv' hop' hs' hf' hd' hrc'
                rcases List.mem_cons.mp hn' with rfl | hn'
                · rw [hpg] at hs'
                  cases hs'
                  rw [horig] at hf'
                  cases hf'
                · exact c5 n' hn' s' iv' hop' hs' hf' hd' hrc'
              · intro n' hn' s' iv' o' hop' hs' hr' hd' ho'
                rcases List.mem_cons.mp hn' with rfl | hn'
                · rw [hpg] at hs'
                  cases hs'
                  rw [hselres] at hr'
                  cases hr'
                  exact absurd hdim hd'
                · exact c7 n' hn' s' iv' o' hop' hs' hr' hd' ho'
            · cases hpo : n.output.get? 0 with
              | none =>
                exfalso
                have hpoe : pyGet n.output 0 = Except.error "IndexError" := by
                  unfold pyGet
                  rw [hpo]
                simp only [shapeGo, if_pos hop, pyGet_eq_ok.mpr hpg] at hok
                rw [hresolve] at hok
                simp only [if_neg hdim, hpoe] at hok
                exact Except.noConfusion hok
              | some o =>
                rw [shapeGo_step_sel g n rest adds rms vi s iv0 o hop hpg
                  hresolve hdim hpo] at hok
                simp only [] at hok
                have hpn : shapeSelected g n = true := by
                  simp only [shapeSelected, hpg, hselres]
                  simp [hop, hdim]
                have hname : iv0.name = s := by
                  have := List.find?_some hin
                  simpa using this
                set cnode := list_to_constant o
                  [((iv0.dim.map Dim.dim_value).length : Int)]
                  ((iv0.dim.map Dim.dim_value).map (fun x => (x : Rat))) with hc
                have hadds' : ∀ a ∈ adds ++ [cnode], a.input = [] := by
                  intro a ha
                  rcases List.mem_append.mp ha with h1 | h2
                  · exact hadds a h1
                  · rw [List.mem_singleton.mp h2]
                    rfl
                have hused : (g.node ++ (adds ++ [cnode])).countP
                    (fun m => decide (iv0.name ∈ m.input)) =
                      refCount g.node s := by
                  have h1 : refCount (g.node ++ (adds ++ [cnode])) iv0.name =
                      refCount g.node iv0.name +
                        refCount (adds ++ [cnode]) iv0.name :=
                    refCount_append _ _ _
                  have hz : refCount (adds ++ [cnode]) iv0.name = 0 :=
                    refCount_of_no_input _ _ hadds'
                  simp only [refCount] at h1 hz ⊢
                  rw [h1, hz, hname]
                  omega
                by_cases hrc : refCount g.node s = 1
                · -- count one on an input-resolved operand: the removal
                  -- raises, contradicting the successful run
                  exfalso
                  rw [if_pos (hused.trans hrc)] at hok
                  have hnotvi : iv0 ∉ vi := by
                    intro hmem
                    exact W2 iv0 (List.mem_of_find?_eq_some hin) iv0
                      (hsub.subset hmem) rfl
                  rw [pyRemove_not_mem hnotvi] at hok
                  cases hok
                · rw [if_neg (fun h => hrc (hused.symm.trans h))] at hok
                  obtain ⟨c1, c2, c3, c4, c5, c6, c7⟩ :=
                    ih (pre ++ [n]) (adds ++ [cnode]) (rms ++ [n]) vi res
                      (by simp [hsplit]) hadds' hsub
                      (fun v hv hnv => by
                        obtain ⟨h1, m, hm, hms⟩ := hmiss v hv hnv
                        exact ⟨h1, m, List.mem_append.mpr (Or.inl hm), hms⟩)
                      hok
                  refine ⟨by rw [c1]; simp [List.filter_cons, hpn],
                    fun a ha => ?_, fun a ha => c3 a (by simp [ha]), c4, ?_,
                    c6, ?_⟩
                  · rcases c2 a ha with h1 | h2
                    · rcases List.mem_append.mp h1 with h3 | h4
                      · exact Or.inl h3
                      · right
                        rw [List.mem_singleton.mp h4]
                        rfl
                    · exact Or.inr h2
                  · intro n' hn' s' iv' hop' hs' hf' hd' hrc'
                    rcases List.mem_cons.mp hn' with rfl | hn'
                    · rw [hpg] at hs'
                      cases hs'
                      rw [horig] at hf'
                      cases hf'
                    · exact c5 n' hn' s' iv' hop' hs' hf' hd' hrc'
                  · intro n' hn' s' iv' o' hop' hs' hr' hd' ho'
                    rcases List.mem_cons.mp hn' with rfl | hn'
                    · rw [hpg] at hs'
                      cases hs'
                      rw [hselres] at hr'
                      cases hr'
                      rw [hpo] at ho'
                      cases ho'
                      exact c3 cnode (by simp)
                    · exact c7 n' hn' s' iv' o' hop' hs' hr' hd' ho'
    · -- not a Shape node: skipped
      rw [shapeGo_step_notshape g n rest adds rms vi hop] at hok
      have hpn : shapeSelected g n = false := by
        simp [shapeSelected, hop]
      obtain ⟨c1, c2, c3, c4, c5, c6, c7⟩ :=
        ih (pre ++ [n]) adds rms vi res (by simp [hsplit]) hadds hsub
          (fun v hv hnv => by
            obtain ⟨h1, m, hm, hms⟩ := hmiss v hv hnv
            exact ⟨h1, m, List.mem_append.mpr (Or.inl hm), hms⟩) hok
      refine ⟨by rw [c1]; simp [List.filter_cons, hpn], c2, c3, c4, ?_, c6, ?_⟩
      · intro n' hn' s' iv' hop' hs' hf' hd' hrc'
        rcases List.mem_cons.mp hn' with rfl | hn'
        · exact absurd hop' hop
        · exact c5 n' hn' s' iv' hop' hs' hf' hd' hrc'
      · intro n' hn' s' iv' o' hop' hs' hr' hd' ho'
        rcases List.mem_cons.mp hn' with rfl | hn'
        · exact absurd hop' hop
        · exact c7 n' hn' s' iv' o' hop' hs' hr' hd' ho'

theorem shapeSelected_true_of (g : GraphProto) (n : NodeProto) (s : String)
    (iv : ValueInfoProto) (hop : n.op_type = "Shape")
    (hs : n.input.get? 0 = some s) (hres : shapeResolveOperand g s = some iv)
    (hdim : iv.dim.length ≠ 0) : shapeSelected g n = true := by
  unfold shapeSelected
  rw [hs]
  show (n.op_type == "Shape" &&
    (match shapeResolveOperand g s with
     | none => false
     | some iv => !(iv.dim.length == 0))) = true
  rw [hres]
  simp [hop, hdim]

theorem shapeSelected_false_of_none (g : GraphProto) (n : NodeProto)
    (s : String) (hs : n.input.get? 0 = some s)
    (hres : shapeResolveOperand g s = none) : shapeSelected g n = false := by
  unfold shapeSelected
  rw [hs]
  show (n.op_type == "Shape" &&
    (match shapeResolveOperand g s with
     | none => false
     | some iv => !(iv.dim.length == 0))) = false
  rw [hres]
  simp

theorem shapeSelected_false_of_empty (g : GraphProto) (n : NodeProto)
    (s : String) (iv : ValueInfoProto) (hs : n.input.get? 0 = some s)
    (hres : shapeResolveOperand g s = some iv) (hdim : iv.dim.length = 0) :
    shapeSelected g n = false := by
  unfold shapeSelected
  rw [hs]
  show (n.op_type == "Shape" &&
    (match shapeResolveOperand g s with
     | none => false
     | some iv => !(iv.dim.length == 0))) = false
  rw [hres]
  simp [hdim]

/-- A successful run of `replace_shape_with_constant`, summarised
against the original graph. -/
theorem replace_shape_with_constant_run {g g' : GraphProto} {flag : Bool}
    (W1 : (g.value_info.map (fun v => v.name)).Nodup)
    (W2 : ∀ v ∈ g.input, ∀ w ∈ g.value_info, v.name ≠ w.name)
    (hok : replace_shape_with_constant g = Except.ok (g', flag)) :
    ∃ adds : List NodeProto, (∀ a ∈ adds, a.input = []) ∧
    g'.node = g.node.filter (fun n => !(shapeSelected g n)) ++ adds ∧
    g'.value_info.Sublist g.value_info ∧
    (∀ n ∈ g.node, ∀ s iv, n.op_type = "Shape" → n.input.get? 0 = some s →
      find_value_by_name g s = some iv → iv.dim.length ≠ 0 →
      refCount g.node s = 1 → iv ∉ g'.value_info) ∧
    (∀ v ∈ g.value_info, refCount g.node v.name ≠ 1 → v ∈ g'.value_info) ∧
    (∀ n ∈ g.node, ∀ s iv o, n.op_type = "Shape" → n.input.get? 0 = some s →
      shapeResolveOperand g s = some iv → iv.dim.length ≠ 0 →
      n.output.get? 0 = some o →
      list_to_constant o [((iv.dim.map Dim.dim_value).length : Int)]
        ((iv.dim.map Dim.dim_value).map (fun x => (x : Rat))) ∈ g'.node) := by
  unfold replace_shape_with_constant at hok
  cases hgo : shapeGo g g.node [] [] g.value_info with
  | error e =>
    rw [hgo] at hok
    exact Except.noConfusion hok
  | ok res =>
    rw [hgo] at hok
    obtain ⟨adds, rms, vi⟩ := res
    obtain ⟨c1, c2, c3, c4, c5, c6, c7⟩ :=
      shapeGo_spec g W1 W2 g.node [] [] [] g.value_info (adds, rms, vi)
        (by simp) (by simp) (List.Sublist.refl _)
        (fun v hv hnv => absurd hv hnv) hgo
    simp only [List.nil_append] at c1
    have hadds : ∀ a ∈ adds, a.input = [] := by
      intro a ha
      rcases c2 a ha with h1 | h2
      · simp at h1
      · exact h2
    have hrm := pyRemoveAll_filter g.node adds (shapeSelected g)
    have hok2 : (match pyRemoveAll (g.node ++ adds) rms with
        | Except.error e =>
          Except.error (e, { g with node := g.node ++ adds, value_info := vi })
        | Except.ok nodes =>
          Except.ok (topological_sort { g with node := nodes, value_info := vi },
            decide (0 < rms.length)))
        = Except.ok (g', flag) := hok
    rw [c1, hrm] at hok2
    have hinv : g' = { g with node := g.node.filter (fun a => !(shapeSelected g a)) ++ adds, value_info := vi } := by
      have h3 : Except.ok (topological_sort { g with node := g.node.filter (fun a => !(shapeSelected g a)) ++ adds, value_info := vi }, decide (0 < (List.filter (shapeSelected g) g.node).length)) = Except.ok (g', flag) := hok2
      unfold topological_sort at h3
      cases h3
      rfl
    subst hinv
    refine ⟨adds, hadds, rfl, c4, ?_, c6, ?_⟩
    · intro n hn s iv hop hs hf hd hrc
      exact c5 n hn s iv hop hs hf hd hrc
    · intro n hn s iv o hop hs hr hd ho
      have := c7 n hn s iv o hop hs hr hd ho
      exact List.mem_append.mpr (Or.inr this)

/-- A Shape node whose operand's recorded shape has an unknown (symbolic)
dimension. -/
def gShapeUnknownDim : GraphProto :=
  { node := [{ op_type := "Shape", name := "sh", input := ["x"],
               output := ["y"] }],
    value_info := [{ name := "x", dim := [Dim.param "N"] }] }

/-- C6, counterexample.  The claim says the pass folds a Shape node only
when every dimension of the operand is known, and leaves the node
unmodified when any dimension is unknown.  On an operand whose only
dimension is symbolic, the pass nevertheless folds: the Shape node is
gone and a Constant holding the placeholder value 0 replaces it. -/
theorem C6_counterexample :
    replace_shape_with_constant gShapeUnknownDim =
      Except.ok ({ gShapeUnknownDim with
        node := [list_to_constant "y" [1] [0]], value_info := [] }, true) ∧
    ∀ g' flag,
      replace_shape_with_constant gShapeUnknownDim = Except.ok (g', flag) →
      { op_type := "Shape", name := "sh", input := ["x"],
        output := ["y"] : NodeProto } ∉ g'.node := by
  refine ⟨rfl, ?_⟩
  intro g' flag h
  have heq : (Except.ok ({ gShapeUnknownDim with
      node := [list_to_constant "y" [1] [0]], value_info := [] }, true) :
      Except (String × GraphProto) (GraphProto × Bool)) =
      Except.ok (g', flag) := by rw [← h]; rfl
  cases heq
  decide

/-- C6, amended.  On a well-formed graph (distinct ValueInfo names,
graph-input names disjoint from intermediate ValueInfo names) and a
successful run, `replace_shape_with_constant` folds a Shape node into a
1-D integer Constant under the same output name, holding the operand's
recorded dimension values (unknown dimensions read as 0), exactly when
the operand's name resolves — as an intermediate value or a graph
input — to a ValueInfo with a non-empty dimension list; when it does not
so resolve, the Shape node is left in the graph untouched.  No dimension
is required to be statically known. -/
theorem C6_shape_fold_condition (g g' : GraphProto) (flag : Bool)
    (W1 : (g.value_info.map (fun v => v.name)).Nodup)
    (W2 : ∀ v ∈ g.input, ∀ w ∈ g.value_info, v.name ≠ w.name)
    (hok : replace_shape_with_constant g = Except.ok (g', flag)) :
    ∀ n ∈ g.node, ∀ s, n.op_type = "Shape" → n.input.get? 0 = some s →
    (∀ iv o, shapeResolveOperand g s = some iv → iv.dim ≠ [] →
      n.output.get? 0 = some o →
      list_to_constant o [((iv.dim.map Dim.dim_value).length : Int)]
        ((iv.dim.map Dim.dim_value).map (fun x => (x : Rat))) ∈ g'.node ∧
      n ∉ g'.node) ∧
    ((shapeResolveOperand g s = none ∨
      (∃ iv, shapeResolveOperand g s = some iv ∧ iv.dim = [])) →
      n ∈ g'.node) := by
  obtain ⟨adds, hadds, hnode, hsubvi, hrem, hret, hconst⟩ :=
    replace_shape_with_constant_run W1 W2 hok
  intro n hn s hop hs
  constructor
  · intro iv o hres hdim ho
    have hlen : iv.dim.length ≠ 0 := by
      intro h0
      exact hdim (List.length_eq_zero.mp h0)
    refine ⟨hconst n hn s iv o hop hs hres hlen ho, ?_⟩
    rw [hnode]
    intro hmem
    rcases List.mem_append.mp hmem with h1 | h2
    · have := List.of_mem_filter h1
      rw [shapeSelected_true_of g n s iv hop hs hres hlen] at this
      cases this
    · have := hadds n h2
      rw [this] at hs
      cases hs
  · intro hcase
    rw [hnode]
    refine List.mem_append.mpr (Or.inl (List.mem_filter.mpr ⟨hn, ?_⟩))
    rcases hcase with h1 | ⟨iv, h2, h3⟩
    · rw [shapeSelected_false_of_none g n s hs h1]
      rfl
    · rw [shapeSelected_false_of_empty g n s iv hs h2
        (by rw [h3]; rfl)]
      rfl

/-- A Shape node on an operand with a fully known two-dimensional shape,
referenced only by the Shape node. -/
def gShapeFold : GraphProto :=
  { node := [{ op_type := "Shape", name := "sh", input := ["x"],
               output := ["y"] }],
    value_info := [{ name := "x", dim := [Dim.known 2, Dim.known 3] }] }

/-- The graph produced by folding `gShapeFold`. -/
def gShapeFoldResult : GraphProto :=
  { gShapeFold with node := [list_to_constant "y" [2] [2, 3]], value_info := [] }

/-- Witness for C6 at a concrete graph. -/
theorem C6_shape_fold_condition_witness :
    list_to_constant "y" [2] [2, 3] ∈ gShapeFoldResult.node ∧
    ({ op_type := "Shape", name := "sh", input := ["x"],
       output := ["y"] : NodeProto }) ∉ gShapeFoldResult.node := by
  have h := C6_shape_fold_condition gShapeFold gShapeFoldResult true
    (by decide) (by decide) rfl
    { op_type := "Shape", name := "sh", input := ["x"], output := ["y"] }
    (by decide) "x" rfl rfl
  have h2 := (h.1 { name := "x", dim := [Dim.known 2, Dim.known 3] } "y"
    rfl (by decide) rfl)
  exact h2

/-- C7.  On a well-formed graph and a successful run of
`replace_shape_with_constant`, the operand ValueInfo of a folded Shape
node is deleted from the graph's intermediate-value metadata if and only
if, counted before any removal, exactly one node of the graph references
the operand's name in its input list.  (The constants appended during
the scan have empty input lists, so the count over the mutated node list
that line 368 computes equals the count over the original node list.) -/
theorem C7_shape_fold_refcount (g g' : GraphProto) (flag : Bool)
    (W1 : (g.value_info.map (fun v => v.name)).Nodup)
    (W2 : ∀ v ∈ g.input, ∀ w ∈ g.value_info, v.name ≠ w.name)
    (hok : replace_shape_with_constant g = Except.ok (g', flag)) :
    ∀ n ∈ g.node, ∀ s iv, n.op_type = "Shape" → n.input.get? 0 = some s →
    find_value_by_name g s = some iv → iv.dim ≠ [] →
    (iv ∉ g'.value_info ↔ refCount g.node s = 1) := by
  obtain ⟨adds, hadds, hnode, hsubvi, hrem, hret, hconst⟩ :=
    replace_shape_with_constant_run W1 W2 hok
  intro n hn s iv hop hs hf hdim
  have hlen : iv.dim.length ≠ 0 := by
    intro h0
    exact hdim (List.length_eq_zero.mp h0)
  constructor
  · intro hout
    by_contra hrc
    have hname : iv.name = s := (findValueInfo_name_mem hf).1
    have hmem : iv ∈ g.value_info := (findValueInfo_name_mem hf).2
    have := hret iv hmem (by rw [hname]; exact hrc)
    exact hout this
  · intro hrc
    exact hrem n hn s iv hop hs hf hlen hrc

/-- A Shape node on a two-dimensional operand referenced by no other
node, for the C7 witness. -/
def gShapeRefOne : GraphProto :=
  { node := [{ op_type := "Shape", name := "sh", input := ["x"],
               output := ["y"] }],
    value_info := [{ name := "x", dim := [Dim.known 4, Dim.known 5] }] }

/-- The graph produced by folding `gShapeRefOne`. -/
def gShapeRefOneResult : GraphProto :=
  { gShapeRefOne with node := [list_to_constant "y" [2] [4, 5]], value_info := [] }

/-- Witness for C7 at a concrete graph: the operand is referenced by
exactly one node, and its ValueInfo is indeed deleted. -/
theorem C7_shape_fold_refcount_witness :
    ({ name := "x", dim := [Dim.known 4, Dim.known 5] : ValueInfoProto }) ∉
      gShapeRefOneResult.value_info ↔
    refCount gShapeRefOne.node "x" = 1 := by
  exact C7_shape_fold_refcount gShapeRefOne gShapeRefOneResult true
    (by decide) (by decide) rfl
    { op_type := "Shape", name := "sh", input := ["x"], output := ["y"] }
    (by decide) "x" { name := "x", dim := [Dim.known 4, Dim.known 5] }
    (by decide) rfl rfl (by decide)

/-! ## Claim C5: Reshape-to-Flatten applicability -/

/-- The in-place retagging of lines 74-78: the node becomes a Flatten,
loses its attributes, and drops its last input (the shape operand). -/
def retag (n : NodeProto) : NodeProto :=
  { n with op_type := "Flatten", attr := [], input := n.input.dropLast }

/-- Whether `replace_Reshape_with_Flatten` rewrites a given node, phrased
over the original graph: a Reshape with some Gemm consumer (via a first
input) whose shape operand is produced by a Constant node.  The consumer
does not have to be the node's only consumer. -/
def flattenSelected (g : GraphProto) (n : NodeProto) : Bool :=
  n.op_type == "Reshape" &&
    (match n.output.get? 0 with
     | none => false
     | some o =>
       gemmConsumer g.node o &&
         (match n.input.get? 1 with
          | none => false
          | some s1 =>
            match findNodeByOutput g.node s1 with
            | none => false
            | some p => p.op_type == "Constant"))

/-- `retag` applied when selected. -/
def retagIf (g : GraphProto) (n : NodeProto) : NodeProto :=
  if flattenSelected g n then retag n else n

theorem dropLast_headD {α : Type} (l : List α) (d : α) (h : 2 ≤ l.length) :
    l.dropLast.headD d = l.headD d := by
  match l, h with
  | x :: y :: tl, _ => simp

theorem dropLast_isEmpty {α : Type} (l : List α) (h : 2 ≤ l.length) :
    l.dropLast.isEmpty = l.isEmpty := by
  match l, h with
  | x :: y :: tl, _ => simp [List.isEmpty]

theorem flattenSelected_input_two {g : GraphProto} {n : NodeProto}
    (h : flattenSelected g n = true) : 2 ≤ n.input.length := by
  unfold flattenSelected at h
  cases ho : n.output.get? 0 with
  | none => rw [ho] at h; simp at h
  | some o =>
    rw [ho] at h
    cases hi : n.input.get? 1 with
    | none => rw [hi] at h; simp at h
    | some s1 =>
      obtain ⟨hlt, -⟩ := List.get?_eq_some.mp hi
      omega

theorem retagIf_output (g : GraphProto) (m : NodeProto) :
    (retagIf g m).output = m.output := by
  unfold retagIf retag
  split <;> rfl

theorem retagIf_gemmPred (g : GraphProto) (m : NodeProto) (o : String) :
    gemmPred (retagIf g m) o = gemmPred m o := by
  unfold retagIf
  by_cases hsel : flattenSelected g m
  · have hlen := flattenSelected_input_two hsel
    have hop : m.op_type = "Reshape" := by
      unfold flattenSelected at hsel
      simp only [Bool.and_eq_true, beq_iff_eq] at hsel
      exact hsel.1
    rw [if_pos hsel]
    unfold gemmPred retag
    simp only
    rw [dropLast_headD m.input "" hlen]
    rw [dropLast_isEmpty m.input hlen, hop]
    simp
  · rw [if_neg hsel]

theorem retagIf_isEmpty (g : GraphProto) (m : NodeProto) :
    (retagIf g m).input.isEmpty = m.input.isEmpty := by
  unfold retagIf
  by_cases hsel : flattenSelected g m
  · have hlen := flattenSelected_input_two hsel
    rw [if_pos hsel]
    unfold retag
    simp only
    exact dropLast_isEmpty m.input hlen
  · rw [if_neg hsel]

theorem gemmConsumer_mixed (g : GraphProto) (pre tail : List NodeProto)
    (o : String) :
    gemmConsumer (pre.map (retagIf g) ++ tail) o =
      gemmConsumer (pre ++ tail) o := by
  unfold gemmConsumer
  induction pre with
  | nil => rfl
  | cons a tl ih =>
    simp only [List.map_cons, List.cons_append, List.any_cons]
    rw [retagIf_gemmPred, ih]

theorem allEmpty_mixed (g : GraphProto) (pre tail : List NodeProto) :
    ((pre.map (retagIf g) ++ tail).all (fun i => i.input.isEmpty)) =
      ((pre ++ tail).all (fun i => i.input.isEmpty)) := by
  induction pre with
  | nil => rfl
  | cons a tl ih =>
    simp only [List.map_cons, List.cons_append, List.all_cons]
    rw [retagIf_isEmpty, ih]

theorem flattenFound_mixed (g : GraphProto) (pre tail : List NodeProto)
    (n : NodeProto) :
    flattenFound (pre.map (retagIf g) ++ tail) n =
      flattenFound (pre ++ tail) n := by
  unfold flattenFound
  rw [allEmpty_mixed]
  by_cases hall : ((pre ++ tail).all fun i => i.input.isEmpty) = true
  · rw [if_pos hall, if_pos hall]
  · rw [if_neg hall, if_neg hall]
    generalize n.output.get? 0 = x
    cases x with
    | none => rfl
    | some o =>
      show Except.ok (gemmConsumer (pre.map (retagIf g) ++ tail) o) =
        Except.ok (gemmConsumer (pre ++ tail) o)
      rw [gemmConsumer_mixed]

theorem gemmConsumer_false_of_allEmpty {nodes : List NodeProto} {o : String}
    (h : nodes.all (fun i => i.input.isEmpty) = true) :
    gemmConsumer nodes o = false := by
  unfold gemmConsumer gemmPred
  rw [List.any_eq_false]
  intro i hi
  have := List.all_eq_true.mp h i hi
  simp [this]

/-- What the `found` computation reports on a successful evaluation. -/
theorem flattenFound_ok {nodes : List NodeProto} {n : NodeProto} {b : Bool}
    (h : flattenFound nodes n = Except.ok b) :
    b = (match n.output.get? 0 with
         | none => false
         | some o => gemmConsumer nodes o) := by
  unfold flattenFound at h
  by_cases hall : nodes.all (fun i => i.input.isEmpty)
  · rw [if_pos hall] at h
    cases h
    cases ho : n.output.get? 0 with
    | none => rfl
    | some o => exact (gemmConsumer_false_of_allEmpty hall).symm
  · rw [if_neg hall] at h
    cases ho : n.output.get? 0 with
    | none => rw [ho] at h; cases h
    | some o =>
      rw [ho] at h
      cases h
      rfl

theorem findNodeByOutput_append (A B : List NodeProto) (s : String) :
    findNodeByOutput (A ++ B) s =
      match findNodeByOutput A s with
      | some p => some p
      | none => findNodeByOutput B s := by
  induction A with
  | nil => rfl
  | cons a tl ih =>
    unfold findNodeByOutput at ih ⊢
    by_cases ha : a.output.any (fun o => o == s)
    · simp [List.find?_cons, ha]
    · simp only [List.cons_append]
      rw [List.find?_cons_of_neg _ (by simpa using ha),
        List.find?_cons_of_neg _ (by simpa using ha)]
      exact ih

theorem findNodeByOutput_map_retagIf (g : GraphProto) (A : List NodeProto)
    (s : String) :
    findNodeByOutput (A.map (retagIf g)) s =
      (findNodeByOutput A s).map (retagIf g) := by
  induction A with
  | nil => rfl
  | cons a tl ih =>
    unfold findNodeByOutput at ih ⊢
    by_cases ha : a.output.any (fun o => o == s)
    · have ha' : (retagIf g a).output.any (fun o => o == s) = true := by
        rw [retagIf_output]; exact ha
      simp [List.find?_cons, ha, ha']
    · have ha' : ¬ ((retagIf g a).output.any (fun o => o == s) = true) := by
        rw [retagIf_output]; exact ha
      simp only [List.map_cons]
      rw [List.find?_cons_of_neg _ (by simpa using ha'),
        List.find?_cons_of_neg _ (by simpa using ha)]
      exact ih

theorem retagIf_eq_self_of_op {g : GraphProto} {p : NodeProto}
    (h : ¬ p.op_type = "Reshape") : retagIf g p = p := by
  unfold retagIf
  rw [if_neg]
  intro hsel
  unfold flattenSelected at hsel
  simp only [Bool.and_eq_true, beq_iff_eq] at hsel
  exact h hsel.1

theorem retagIf_op_constant (g : GraphProto) (p : NodeProto) :
    ((retagIf g p).op_type = "Constant") ↔ (p.op_type = "Constant") := by
  unfold retagIf
  by_cases hsel : flattenSelected g p
  · rw [if_pos hsel]
    unfold flattenSelected at hsel
    simp only [Bool.and_eq_true, beq_iff_eq] at hsel
    unfold retag
    constructor
    · intro h
      have h2 : "Flatten" = "Constant" := h
      exact absurd h2 (by decide)
    · intro h
      rw [hsel.1] at h
      exact absurd h (by decide)
  · rw [if_neg hsel]

theorem flattenSelected_false_of_op {g : GraphProto} {n : NodeProto}
    (h : ¬ n.op_type = "Reshape") : flattenSelected g n = false := by
  unfold flattenSelected
  simp [h]

theorem flattenSelected_eq (g : GraphProto) (n : NodeProto) (o : String)
    (hop : n.op_type = "Reshape") (ho : n.output.get? 0 = some o) :
    flattenSelected g n =
      (gemmConsumer g.node o &&
        (match n.input.get? 1 with
         | none => false
         | some s1 =>
           match findNodeByOutput g.node s1 with
           | none => false
           | some p => p.op_type == "Constant")) := by
  unfold flattenSelected
  rw [ho]
  show (n.op_type == "Reshape" && _) = _
  simp [hop]

theorem flattenSelected_false_of_out_none {g : GraphProto} {n : NodeProto}
    (ho : n.output.get? 0 = none) : flattenSelected g n = false := by
  unfold flattenSelected
  rw [ho]
  show (n.op_type == "Reshape" && false) = false
  simp

theorem flattenGo_step_skip (done : List NodeProto) (n : NodeProto)
    (rest : List NodeProto) (vi : List ValueInfoProto) (rms : List NodeProto)
    (hop : ¬ n.op_type = "Reshape") :
    flattenGo done (n :: rest) vi rms = flattenGo (done ++ [n]) rest vi rms := by
  simp only [flattenGo, if_neg hop]

theorem flattenGo_step_notfound (done : List NodeProto) (n : NodeProto)
    (rest : List NodeProto) (vi : List ValueInfoProto) (rms : List NodeProto)
    (hop : n.op_type = "Reshape")
    (hff : flattenFound (done ++ n :: rest) n = Except.ok false) :
    flattenGo done (n :: rest) vi rms = flattenGo (done ++ [n]) rest vi rms := by
  simp only [flattenGo, if_pos hop, hff]

theorem flattenGo_step_notconst (done : List NodeProto) (n : NodeProto)
    (rest : List NodeProto) (vi : List ValueInfoProto) (rms : List NodeProto)
    (s1 : String) (shape_node : NodeProto)
    (hop : n.op_type = "Reshape")
    (hff : flattenFound (done ++ n :: rest) n = Except.ok true)
    (hs1 : n.input.get? 1 = some s1)
    (hfind : findNodeByOutput (done ++ n :: rest) s1 = some shape_node)
    (hsc : ¬ shape_node.op_type = "Constant") :
    flattenGo done (n :: rest) vi rms = flattenGo (done ++ [n]) rest vi rms := by
  simp only [flattenGo, if_pos hop, hff, pyGet_eq_ok.mpr hs1, hfind, if_neg hsc]

theorem flattenGo_step_sel (done : List NodeProto) (n : NodeProto)
    (rest : List NodeProto) (vi : List ValueInfoProto) (rms : List NodeProto)
    (s1 : String) (shape_node : NodeProto) (so : String)
    (sv : ValueInfoProto) (vi' : List ValueInfoProto)
    (hop : n.op_type = "Reshape")
    (hff : flattenFound (done ++ n :: rest) n = Except.ok true)
    (hs1 : n.input.get? 1 = some s1)
    (hfind : findNodeByOutput (done ++ n :: rest) s1 = some shape_node)
    (hsc : shape_node.op_type = "Constant")
    (hso : shape_node.output.get? 0 = some so)
    (hfv : findValueInfo vi so = some sv)
    (hpr : pyRemove vi sv = Except.ok vi') :
    flattenGo done (n :: rest) vi rms =
      flattenGo (done ++ [retag n]) rest vi' (rms ++ [shape_node]) := by
  simp only [flattenGo, if_pos hop, hff, pyGet_eq_ok.mpr hs1, hfind,
    if_pos hsc, pyGet_eq_ok.mpr hso, hfv, hpr]
  rfl

/-- How the producer lookup behaves on a partially retagged list: lookups
fail together, and found nodes agree on being `Constant` (retagging never
produces or destroys a `Constant`), coinciding exactly when `Constant`. -/
theorem findNodeByOutput_mixed (g : GraphProto) (pre tail : List NodeProto)
    (s : String) :
    (findNodeByOutput (pre.map (retagIf g) ++ tail) s = none ∧
       findNodeByOutput (pre ++ tail) s = none) ∨
    (∃ p q, findNodeByOutput (pre ++ tail) s = some p ∧
       findNodeByOutput (pre.map (retagIf g) ++ tail) s = some q ∧
       ((q.op_type = "Constant") ↔ (p.op_type = "Constant")) ∧
       (p.op_type = "Constant" → q = p)) := by
  rw [findNodeByOutput_append, findNodeByOutput_append, findNodeByOutput_map_retagIf]
  cases hpre : findNodeByOutput pre s with
  | some p =>
    right
    exact ⟨p, retagIf g p, rfl, rfl, retagIf_op_constant g p,
      fun hc => retagIf_eq_self_of_op (by rw [hc]; decide)⟩
  | none =>
    cases htail : findNodeByOutput tail s with
    | none => left; exact ⟨rfl, rfl⟩
    | some p => right; exact ⟨p, p, rfl, rfl, Iff.rfl, fun _ => rfl⟩

/-- The flatten scan retags exactly the selected nodes, and every node it
queues for removal is a `Constant`. -/
theorem flattenGo_spec (g : GraphProto) :
    ∀ (rest pre rms : List NodeProto) (vi : List ValueInfoProto)
      (res : List NodeProto × List ValueInfoProto × List NodeProto),
    g.node = pre ++ rest →
    (∀ r ∈ rms, r.op_type = "Constant") →
    flattenGo (pre.map (retagIf g)) rest vi rms = Except.ok res →
    res.1 = g.node.map (retagIf g) ∧ (∀ r ∈ res.2.2, r.op_type = "Constant") := by
  intro rest
  induction rest with
  | nil =>
    intro pre rms vi res hsplit hrms hok
    simp only [flattenGo] at hok
    cases hok
    refine ⟨?_, hrms⟩
    rw [hsplit, List.append_nil]
  | cons n rest ih =>
    intro pre rms vi res hsplit hrms hok
    by_cases hop : n.op_type = "Reshape"
    · have hffm0 := flattenFound_mixed g pre (n :: rest) n
      rw [← hsplit] at hffm0
      cases hff : flattenFound g.node n with
      | error e =>
        rw [hff] at hffm0
        simp only [flattenGo, if_pos hop, hffm0] at hok
        exact Except.noConfusion hok
      | ok b =>
        rw [hff] at hffm0
        have hb := flattenFound_ok hff
        cases b with
        | false =>
          rw [flattenGo_step_notfound _ _ _ _ _ hop hffm0] at hok
          have hns : flattenSelected g n = false := by
            cases ho : n.output.get? 0 with
            | none => exact flattenSelected_false_of_out_none ho
            | some o =>
              have hb2 : false = gemmConsumer g.node o := by rw [ho] at hb; exact hb
              rw [flattenSelected_eq g n o hop ho, ← hb2]
              simp
          have hr : retagIf g n = n := by simp [retagIf, hns]
          have hmix : pre.map (retagIf g) ++ [n] = (pre ++ [n]).map (retagIf g) := by
            rw [List.map_append]
            simp [hr]
          rw [hmix] at hok
          exact ih (pre ++ [n]) rms vi res (by rw [hsplit]; simp) hrms hok
        | true =>
          cases ho : n.output.get? 0 with
          | none =>
            have hb2 : (true : Bool) = false := by rw [ho] at hb; exact hb
            cases hb2
          | some o =>
            have hgc : gemmConsumer g.node o = true := by
              have hb2 : true = gemmConsumer g.node o := by rw [ho] at hb; exact hb
              exact hb2.symm
            cases hi : n.input.get? 1 with
            | none =>
              have hpg : pyGet n.input 1 = Except.error "IndexError" := by
                unfold pyGet; rw [hi]
              simp only [flattenGo, if_pos hop, hffm0, hpg] at hok
              exact Except.noConfusion hok
            | some s1 =>
              rcases findNodeByOutput_mixed g pre (n :: rest) s1 with
                ⟨hmnone, -⟩ | ⟨p, q, hofind, hmfind, hqc, hqp⟩
              · simp only [flattenGo, if_pos hop, hffm0, pyGet_eq_ok.mpr hi,
                  hmnone] at hok
                exact Except.noConfusion hok
              · have hofind' : findNodeByOutput g.node s1 = some p := by
                  rw [hsplit]; exact hofind
                by_cases hc : p.op_type = "Constant"
                · rw [hqp hc] at hmfind
                  cases hso : p.output.get? 0 with
                  | none =>
                    have hpg : pyGet p.output 0 = Except.error "IndexError" := by
                      unfold pyGet; rw [hso]
                    simp only [flattenGo, if_pos hop, hffm0, pyGet_eq_ok.mpr hi,
                      hmfind, if_pos hc, hpg] at hok
                    exact Except.noConfusion hok
                  | some so =>
                    cases hfv : findValueInfo vi so with
                    | none =>
                      simp only [flattenGo, if_pos hop, hffm0, pyGet_eq_ok.mpr hi,
                        hmfind, if_pos hc, pyGet_eq_ok.mpr hso, hfv] at hok
                      exact Except.noConfusion hok
                    | some sv =>
                      cases hpr : pyRemove vi sv with
                      | error e =>
                        simp only [flattenGo, if_pos hop, hffm0, pyGet_eq_ok.mpr hi,
                          hmfind, if_pos hc, pyGet_eq_ok.mpr hso, hfv, hpr] at hok
                        exact Except.noConfusion hok
                      | ok vi' =>
                        rw [flattenGo_step_sel _ n rest vi rms s1 p so sv vi'
                          hop hffm0 hi hmfind hc hso hfv hpr] at hok
                        have hsel : flattenSelected g n = true := by
                          rw [flattenSelected_eq g n o hop ho]
                          simp only [hgc, hi, hofind', Bool.true_and]
                          simp [hc]
                        have hretag : retagIf g n = retag n := by
                          unfold retagIf; rw [if_pos hsel]
                        have hmix : pre.map (retagIf g) ++ [retag n] =
                            (pre ++ [n]).map (retagIf g) := by
                          rw [List.map_append]
                          simp [hretag]
                        rw [hmix] at hok
                        refine ih (pre ++ [n]) (rms ++ [p]) vi' res
                          (by rw [hsplit]; simp) ?_ hok
                        intro r hr
                        rcases List.mem_append.mp hr with h | h
                        · exact hrms r h
                        · rw [List.mem_singleton.mp h]; exact hc
                · have hqc' : ¬ q.op_type = "Constant" := fun h => hc (hqc.mp h)
                  rw [flattenGo_step_notconst _ n rest vi rms s1 q hop hffm0 hi
                    hmfind hqc'] at hok
                  have hns : flattenSelected g n = false := by
                    rw [flattenSelected_eq g n o hop ho]
                    simp only [hi, hofind']
                    simp [hc]
                  have hr : retagIf g n = n := by simp [retagIf, hns]
                  have hmix : pre.map (retagIf g) ++ [n] =
                      (pre ++ [n]).map (retagIf g) := by
                    rw [List.map_append]
                    simp [hr]
                  rw [hmix] at hok
                  exact ih (pre ++ [n]) rms vi res (by rw [hsplit]; simp) hrms hok
    · rw [flattenGo_step_skip _ _ _ _ _ hop] at hok
      have hr : retagIf g n = n := retagIf_eq_self_of_op hop
      have hmix : pre.map (retagIf g) ++ [n] = (pre ++ [n]).map (retagIf g) := by
        rw [List.map_append]
        simp [hr]
      rw [hmix] at hok
      exact ih (pre ++ [n]) rms vi res (by rw [hsplit]; simp) hrms hok

/-- CLAIM C5 (amended).  On a successful run of
`replace_Reshape_with_Flatten`, a node of the original graph is rewritten
into its retagged Flatten form (attributes dropped, last input dropped)
exactly when `flattenSelected` holds of it: it is a Reshape, SOME node
consumes its first output as a first input and is a Gemm — the Gemm does
not have to be its sole consumer — and its second input is produced by a
Constant node.  A selected Reshape itself disappears from the result; an
unselected Reshape is kept verbatim. -/
theorem C5_flatten_rewrite_condition (g g' : GraphProto) (n : NodeProto)
    (hok : replace_Reshape_with_Flatten g = Except.ok g')
    (hn : n ∈ g.node) :
    (flattenSelected g n = true → retag n ∈ g'.node ∧ n ∉ g'.node) ∧
    (n.op_type = "Reshape" → flattenSelected g n = false → n ∈ g'.node) := by
  unfold replace_Reshape_with_Flatten at hok
  cases hgo : flattenGo [] g.node g.value_info [] with
  | error e => rw [hgo] at hok; exact Except.noConfusion hok
  | ok r =>
    rw [hgo] at hok
    obtain ⟨nodes, vi2, rms⟩ := r
    have hspec := flattenGo_spec g g.node [] [] g.value_info (nodes, vi2, rms)
      (by simp) (by intro r hr; cases hr) hgo
    have hnodes : nodes = List.map (retagIf g) g.node := hspec.1
    have hconst : ∀ r ∈ rms, r.op_type = "Constant" := hspec.2
    have hok2 : (match pyRemoveAll nodes rms with
      | Except.error e => (Except.error e : Except String GraphProto)
      | Except.ok nodes' =>
        Except.ok { g with node := nodes', value_info := vi2 }) = Except.ok g' := hok
    cases hra : pyRemoveAll nodes rms with
    | error e => rw [hra] at hok2; exact Except.noConfusion hok2
    | ok nodes' =>
      rw [hra] at hok2
      cases hok2
      constructor
      · intro hsel
        have hop : n.op_type = "Reshape" := by
          unfold flattenSelected at hsel
          simp only [Bool.and_eq_true, beq_iff_eq] at hsel
          exact hsel.1
        constructor
        · show retag n ∈ nodes'
          have hmem : retag n ∈ nodes := by
            rw [hnodes]
            have hr : retagIf g n = retag n := by unfold retagIf; rw [if_pos hsel]
            rw [← hr]
            exact List.mem_map_of_mem _ hn
          refine pyRemoveAll_mem_of_not_removed hra hmem ?_
          intro hrm
          have hcr := hconst (retag n) hrm
          have h2 : "Flatten" = "Constant" := hcr
          exact absurd h2 (by decide)
        · show n ∉ nodes'
          intro hmem'
          have hmem : n ∈ nodes := pyRemoveAll_subset hra hmem'
          rw [hnodes] at hmem
          obtain ⟨m, hm, hme⟩ := List.mem_map.mp hmem
          unfold retagIf at hme
          by_cases hms : flattenSelected g m
          · rw [if_pos hms] at hme
            have h2 : "Flatten" = "Reshape" := by
              rw [← hop, ← hme]
              rfl
            exact absurd h2 (by decide)
          · rw [if_neg hms] at hme
            rw [hme] at hms
            exact hms hsel
      · intro hop hns
        show n ∈ nodes'
        have hmem : n ∈ nodes := by
          rw [hnodes]
          have hr : retagIf g n = n := by simp [retagIf, hns]
          rw [← hr]
          exact List.mem_map_of_mem _ hn
        refine pyRemoveAll_mem_of_not_removed hra hmem ?_
        intro hrm
        have hcr := hconst n hrm
        rw [hop] at hcr
        have h2 : "Reshape" = "Constant" := hcr
        exact absurd h2 (by decide)

/-- A Reshape with a Gemm consumer AND an extra Add consumer of the same
output, whose shape operand comes from a Constant. -/
def reshMulti : NodeProto :=
  { op_type := "Reshape", name := "r", input := ["x", "shp"], output := ["ro"] }

/-- A Reshape with no Gemm consumer at all. -/
def reshPlain : NodeProto :=
  { op_type := "Reshape", name := "r2", input := ["x2", "shp2"], output := ["ro2"] }

/-- Graph with both Reshapes, the shape Constant, the Gemm and the extra
Add consumer. -/
def gFlattenMulti : GraphProto :=
  { node := [
      { op_type := "Constant", name := "cshp", input := [], output := ["shp"] },
      reshMulti,
      reshPlain,
      { op_type := "Gemm", name := "gm", input := ["ro", "w", "b"], output := ["go"] },
      { op_type := "Add", name := "ad", input := ["ro", "y"], output := ["ao"] } ],
    value_info := [{ name := "shp", elem_type := 7, dim := [Dim.known 2] }] }

/-- The graph `replace_Reshape_with_Flatten` produces from
`gFlattenMulti`: the multi-consumer Reshape is retagged, the plain one
kept, the shape Constant and its ValueInfo removed. -/
def gFlattenMultiResult : GraphProto :=
  { node := [
      { op_type := "Flatten", name := "r", input := ["x"], output := ["ro"] },
      reshPlain,
      { op_type := "Gemm", name := "gm", input := ["ro", "w", "b"], output := ["go"] },
      { op_type := "Add", name := "ad", input := ["ro", "y"], output := ["ao"] } ],
    value_info := [] }

/-- CLAIM C5, counterexample to the original wording: the Reshape
`reshMulti` has a Gemm consumer plus an additional non-Gemm (Add)
consumer of the same output, so by the claim it should be left
untouched; the pass nevertheless rewrites it to a Flatten, and no
Reshape named "r" survives. -/
theorem C5_counterexample :
    replace_Reshape_with_Flatten gFlattenMulti = Except.ok gFlattenMultiResult ∧
    (∃ m ∈ gFlattenMulti.node,
       m.op_type = "Add" ∧ "ro" ∈ m.input ∧ ¬ m.op_type = "Gemm") ∧
    (∀ m ∈ gFlattenMultiResult.node, ¬ (m.op_type = "Reshape" ∧ m.name = "r")) ∧
    (∃ m ∈ gFlattenMultiResult.node, m.op_type = "Flatten" ∧ m.output = ["ro"]) := by
  refine ⟨rfl, ?_, ?_, ?_⟩ <;> decide

/-- CLAIM C5, witness: both branches of the amended theorem on the
concrete graph — the multi-consumer Reshape is rewritten and gone, the
Gemm-less Reshape survives verbatim. -/
theorem C5_flatten_rewrite_condition_witness :
    (retag reshMulti ∈ gFlattenMultiResult.node ∧
       reshMulti ∉ gFlattenMultiResult.node) ∧
    reshPlain ∈ gFlattenMultiResult.node := by
  refine ⟨(C5_flatten_rewrite_condition gFlattenMulti gFlattenMultiResult reshMulti
    rfl (by decide)).1 (by decide), ?_⟩
  exact (C5_flatten_rewrite_condition gFlattenMulti gFlattenMultiResult reshPlain
    rfl (by decide)).2 (by decide) (by decide)

/-- A producer found by output name really lists that name among its
outputs. -/
theorem findNodeByOutput_mem_output {l : List NodeProto} {s : String}
    {p : NodeProto} (h : findNodeByOutput l s = some p) : s ∈ p.output := by
  have hp := List.find?_some h
  simp only [List.any_eq_true, beq_iff_eq] at hp
  obtain ⟨o, ho, rfl⟩ := hp
  exact ho

/-- One step of the dilated-conv scan, on a successful run: the head is
deposited (possibly rewritten) onto the processed prefix, the warning
list only grows, and the removal queue either stays put or gains the
producer of the head's second input. -/
theorem dilatedGo_progress {done : List NodeProto} {n : NodeProto}
    {rest adds rms : List NodeProto} {vi : List ValueInfoProto}
    {ws : List String}
    {res : List NodeProto × List NodeProto × List NodeProto ×
      List ValueInfoProto × List String}
    (hok : dilatedGo done (n :: rest) adds rms vi ws = Except.ok res) :
    ∃ x adds' rms' vi' tw,
      dilatedGo (done ++ [x]) rest adds' rms' vi' (ws ++ tw) = Except.ok res ∧
      (x = n ∨ n.op_type = "Conv") ∧
      (rms' = rms ∨ ∃ w s, rms' = rms ++ [w] ∧
        n.input.get? 1 = some s ∧ s ∈ w.output ∧
        (hasDilations n && hasStrides n) = false) := by
  simp only [dilatedGo] at hok
  split at hok
  · rename_i hconv0
    split at hok
    · exact ⟨n, adds, rms, vi, [warnBothSet n.name], hok, Or.inl rfl, Or.inl rfl⟩
    · rename_i hboth
      split at hok
      · exact ⟨n, adds, rms, vi, [], by simpa using hok, Or.inl rfl, Or.inl rfl⟩
      · split at hok
        · exact Except.noConfusion hok
        · rename_i s heq
          split at hok
          · exact Except.noConfusion hok
          · rename_i w_node heq2
            split at hok
            · exact Except.noConfusion hok
            · rename_i a0 heq3
              generalize (if a0.t.float_data.length = 0 then a0.t.raw_data
                else a0.t.float_data) = weight at hok
              split at hok
              · exact Except.noConfusion hok
              · split at hok
                · exact Except.noConfusion hok
                · split at hok
                  · split at hok
                    · exact Except.noConfusion hok
                    · rename_i dil0 hd0
                      split at hok
                      · exact Except.noConfusion hok
                      · rename_i dil1 hd1
                        split at hok
                        · exact Except.noConfusion hok
                        · split at hok
                          · exact Except.noConfusion hok
                          · split at hok
                            · exact Except.noConfusion hok
                            · rename_i wo hwo
                              split at hok
                              · exact Except.noConfusion hok
                              · rename_i wo' hwo'
                                split at hok
                                · exact Except.noConfusion hok
                                · rename_i attrs' hattrs
                                  refine ⟨_, _, _, _, [], by simpa using hok,
                                    Or.inr hconv0,
                                    Or.inr ⟨w_node, s, rfl, pyGet_eq_ok.mp heq,
                                      findNodeByOutput_mem_output heq2,
                                      by simpa using hboth⟩⟩
                  · exact Except.noConfusion hok
  · exact ⟨n, adds, rms, vi, [], by simpa using hok, Or.inl rfl, Or.inl rfl⟩

/-- The dilated-conv scan only ever extends the processed prefix and the
warning list. -/
theorem dilatedGo_mono :
    ∀ (rest done adds rms : List NodeProto) (vi : List ValueInfoProto)
      (ws : List String)
      (res : List NodeProto × List NodeProto × List NodeProto ×
        List ValueInfoProto × List String),
    dilatedGo done rest adds rms vi ws = Except.ok res →
    (∃ td, res.1 = done ++ td) ∧ (∃ tw, res.2.2.2.2 = ws ++ tw) := by
  intro rest
  induction rest with
  | nil =>
    intro done adds rms vi ws res hok
    simp only [dilatedGo] at hok
    cases hok
    exact ⟨⟨[], by simp⟩, ⟨[], by simp⟩⟩
  | cons n rest ih =>
    intro done adds rms vi ws res hok
    obtain ⟨x, adds', rms', vi', tw, hok', -, -⟩ := dilatedGo_progress hok
    obtain ⟨⟨td, htd⟩, ⟨tw2, htw⟩⟩ := ih (done ++ [x]) adds' rms' vi' (ws ++ tw) res hok'
    exact ⟨⟨[x] ++ td, by rw [htd]; simp⟩, ⟨tw ++ tw2, by rw [htw]; simp⟩⟩

/-- Every node the dilated-conv scan queues for removal was already
queued or produces the second input of some node of the unprocessed
suffix. -/
theorem dilatedGo_rms (C : NodeProto → Prop) :
    ∀ (rest done adds rms : List NodeProto) (vi : List ValueInfoProto)
      (ws : List String)
      (res : List NodeProto × List NodeProto × List NodeProto ×
        List ValueInfoProto × List String),
    dilatedGo done rest adds rms vi ws = Except.ok res →
    (∀ r ∈ rms, C r) →
    (∀ m ∈ rest, (hasDilations m && hasStrides m) = false →
       ∀ w s, m.input.get? 1 = some s → s ∈ w.output → C w) →
    ∀ r ∈ res.2.2.1, C r := by
  intro rest
  induction rest with
  | nil =>
    intro done adds rms vi ws res hok hC hP
    simp only [dilatedGo] at hok
    cases hok
    exact hC
  | cons n rest ih =>
    intro done adds rms vi ws res hok hC hP
    obtain ⟨x, adds', rms', vi', tw, hok', -, hr⟩ := dilatedGo_progress hok
    refine ih (done ++ [x]) adds' rms' vi' (ws ++ tw) res hok' ?_ ?_
    · rcases hr with rfl | ⟨w, s, rfl, hsin, hsw, hbf⟩
      · exact hC
      · intro r hrm
        rcases List.mem_append.mp hrm with h | h
        · exact hC r h
        · rw [List.mem_singleton.mp h]
          exact hP n (List.mem_cons_self n rest) hbf w s hsin hsw
    · intro m hm
      exact hP m (List.mem_cons_of_mem _ hm)

/-- A Conv with both non-unit dilations and non-unit strides is passed
through unmodified and its warning is recorded. -/
theorem dilatedGo_warn_mem (n : NodeProto)
    (hconv : n.op_type = "Conv") (hd : hasDilations n = true)
    (hs : hasStrides n = true) :
    ∀ (rest done adds rms : List NodeProto) (vi : List ValueInfoProto)
      (ws : List String)
      (res : List NodeProto × List NodeProto × List NodeProto ×
        List ValueInfoProto × List String),
    dilatedGo done rest adds rms vi ws = Except.ok res →
    n ∈ rest →
    n ∈ res.1 ∧ warnBothSet n.name ∈ res.2.2.2.2 := by
  intro rest
  induction rest with
  | nil =>
    intro done adds rms vi ws res hok hmem
    exact absurd hmem (List.not_mem_nil n)
  | cons m rest ih =>
    intro done adds rms vi ws res hok hmem
    rcases List.mem_cons.mp hmem with rfl | hmem'
    · have hstep : dilatedGo done (n :: rest) adds rms vi ws =
          dilatedGo (done ++ [n]) rest adds rms vi
            (ws ++ [warnBothSet n.name]) := by
        simp [dilatedGo, hconv, hd, hs]
      rw [hstep] at hok
      obtain ⟨⟨td, htd⟩, ⟨tw, htw⟩⟩ := dilatedGo_mono rest (done ++ [n])
        adds rms vi (ws ++ [warnBothSet n.name]) res hok
      constructor
      · rw [htd]; simp
      · rw [htw]; simp
    · obtain ⟨x, adds', rms', vi', tw, hok', -, -⟩ := dilatedGo_progress hok
      exact ih (done ++ [x]) adds' rms' vi' (ws ++ tw) res hok' hmem'

/-- A node that is not a Conv passes through the dilated-conv scan
verbatim. -/
theorem dilatedGo_keep (n : NodeProto) (hnc : ¬ n.op_type = "Conv") :
    ∀ (rest done adds rms : List NodeProto) (vi : List ValueInfoProto)
      (ws : List String)
      (res : List NodeProto × List NodeProto × List NodeProto ×
        List ValueInfoProto × List String),
    dilatedGo done rest adds rms vi ws = Except.ok res →
    n ∈ rest → n ∈ res.1 := by
  intro rest
  induction rest with
  | nil =>
    intro done adds rms vi ws res hok hmem
    exact absurd hmem (List.not_mem_nil n)
  | cons m rest ih =>
    intro done adds rms vi ws res hok hmem
    rcases List.mem_cons.mp hmem with rfl | hmem'
    · obtain ⟨x, adds', rms', vi', tw, hok', hx, -⟩ := dilatedGo_progress hok
      rcases hx with rfl | hc
      · obtain ⟨⟨td, htd⟩, -⟩ := dilatedGo_mono rest (done ++ [x]) adds' rms'
          vi' (ws ++ tw) res hok'
        rw [htd]
        simp
      · exact absurd hc hnc
    · obtain ⟨x, adds', rms', vi', tw, hok', -, -⟩ := dilatedGo_progress hok
      exact ih (done ++ [x]) adds' rms' vi' (ws ++ tw) res hok' hmem'

/-- CLAIM C8.  On a successful run of `replace_dilated_conv`, every Conv
node of the original graph carrying both a dilations attribute other
than `[1, 1]` and a strides attribute other than `[1, 1]` is kept in the
rewritten graph verbatim, and the warning line printed for it is among
the collected diagnostics; the run still completes (it does not raise on
that node).  The side condition asks that no node uses one of `n`'s
outputs as its second (weight) input, so that `n` cannot be discarded as
the weight producer of some other rewritten Conv. -/
theorem C8_dilated_both_set_warns (g g' : GraphProto) (ws : List String)
    (n : NodeProto)
    (hok : replace_dilated_conv g = Except.ok (g', ws))
    (hn : n ∈ g.node) (hconv : n.op_type = "Conv")
    (hd : hasDilations n = true) (hs : hasStrides n = true)
    (hiso : ∀ m ∈ g.node, ∀ s, m.input.get? 1 = some s → s ∉ n.output)
    (s1 : String) (w : NodeProto)
    (hs1 : n.input.get? 1 = some s1)
    (hw : findNodeByOutput g.node s1 = some w)
    (hwnc : ¬ w.op_type = "Conv")
    (hwiso : ∀ m ∈ g.node, (hasDilations m && hasStrides m) = false →
      ∀ t, m.input.get? 1 = some t → t ∉ w.output) :
    n ∈ g'.node ∧ warnBothSet n.name ∈ ws ∧ w ∈ g'.node := by
  unfold replace_dilated_conv at hok
  cases hgo : dilatedGo [] g.node [] [] g.value_info [] with
  | error e => rw [hgo] at hok; exact Except.noConfusion hok
  | ok r =>
    rw [hgo] at hok
    obtain ⟨done, adds, rms, vi, ws2⟩ := r
    have hok2 : (match pyRemoveAll (done ++ adds) rms with
      | Except.error e => (Except.error e : Except String (GraphProto × List String))
      | Except.ok nodes =>
        Except.ok ({ g with node := nodes, value_info := vi }, ws2)) =
        Except.ok (g', ws) := hok
    cases hra : pyRemoveAll (done ++ adds) rms with
    | error e => rw [hra] at hok2; exact Except.noConfusion hok2
    | ok nodes =>
      rw [hra] at hok2
      cases hok2
      have hwm := dilatedGo_warn_mem n hconv hd hs g.node [] [] []
        g.value_info [] (done, adds, rms, vi, ws) hgo hn
      have hnd : n ∈ done := hwm.1
      have hwarn : warnBothSet n.name ∈ ws := hwm.2
      have hnr : ∀ r ∈ rms, ¬ n = r := by
        refine dilatedGo_rms (fun r => ¬ n = r) g.node [] [] [] g.value_info []
          (done, adds, rms, vi, ws) hgo ?_ ?_
        · intro r hr
          cases hr
        · intro m hm hbf w s hsin hsw he
          rw [he] at hiso
          exact hiso m hm s hsin hsw
      have hwd : w ∈ done := dilatedGo_keep w hwnc g.node [] [] []
        g.value_info [] (done, adds, rms, vi, ws) hgo
        (List.mem_of_find?_eq_some hw)
      have hwr : ∀ r ∈ rms, ¬ w = r := by
        refine dilatedGo_rms (fun r => ¬ w = r) g.node [] [] [] g.value_info []
          (done, adds, rms, vi, ws) hgo ?_ ?_
        · intro r hr
          cases hr
        · intro m hm hbf w2 t htin htw he
          rw [← he] at htw
          exact hwiso m hm hbf t htin htw
      refine ⟨?_, hwarn, ?_⟩
      · show n ∈ nodes
        refine pyRemoveAll_mem_of_not_removed hra ?_ ?_
        · exact List.mem_append.mpr (Or.inl hnd)
        · intro hmem
          exact hnr n hmem rfl
      · show w ∈ nodes
        refine pyRemoveAll_mem_of_not_removed hra ?_ ?_
        · exact List.mem_append.mpr (Or.inl hwd)
        · intro hmem
          exact hwr w hmem rfl

/-- A Conv with both non-unit dilations and non-unit strides. -/
def convBoth : NodeProto :=
  { op_type := "Conv", name := "c", input := ["x", "w"], output := ["y"],
    attr := [{ name := "dilations", ints := [2, 2] },
             { name := "strides", ints := [2, 2] }] }

/-- The Constant producing `convBoth`'s weight. -/
def weightConst : NodeProto :=
  { op_type := "Constant", name := "cw", output := ["w"],
    attr := [{ name := "value",
               t := { name := "w", data_type := 1, dims := [1, 1, 2, 2],
                      float_data := [1, 2, 3, 4], raw_data := [] } }] }

/-- Graph with the conflicting Conv and its weight Constant. -/
def gDilatedBoth : GraphProto :=
  { node := [weightConst, convBoth] }

/-- CLAIM C8, witness: on the concrete graph the pass completes, keeps
the Conv and its weight Constant verbatim, and collects the warning. -/
theorem C8_dilated_both_set_warns_witness :
    convBoth ∈ gDilatedBoth.node ∧
      warnBothSet convBoth.name ∈ [warnBothSet "c"] ∧
      weightConst ∈ gDilatedBoth.node := by
  refine C8_dilated_both_set_warns gDilatedBoth gDilatedBoth
    [warnBothSet "c"] convBoth rfl (by decide) rfl (by decide) (by decide)
    ?_ "w" weightConst rfl rfl (by decide) ?_
  · intro m hm s hsin
    rcases List.mem_cons.mp hm with rfl | hm2
    · exact Option.noConfusion hsin
    · obtain rfl := List.mem_singleton.mp hm2
      have h2 : (some "w" : Option String) = some s := hsin
      obtain rfl : "w" = s := Option.some.inj h2
      decide
  · intro m hm hbf t htin
    rcases List.mem_cons.mp hm with rfl | hm2
    · exact Option.noConfusion htin
    · obtain rfl := List.mem_singleton.mp hm2
      exact absurd hbf (by decide)

/-! ## Claim C1: dilated-convolution kernel expansion -/

/-- Quotient/remainder uniqueness for the row-major index arithmetic. -/
theorem divmod_pair_eq {W A A' r r' : Nat} (hr : r < W) (hr' : r' < W)
    (h : A * W + r = A' * W + r') : A = A' ∧ r = r' := by
  have hW : 0 < W := by omega
  have h1 : ∀ B s, s < W → (B * W + s) / W = B := by
    intro B s hs
    rw [Nat.mul_comm B W, Nat.mul_add_div hW, Nat.div_eq_of_lt hs]
    omega
  have hA : A = A' := by
    rw [← h1 A r hr, ← h1 A' r' hr', h]
  refine ⟨hA, ?_⟩
  rw [hA] at h
  exact Nat.add_left_cancel h

theorem foldl_set_length (L : List (Nat × Rat)) (init : List Rat) :
    (L.foldl (fun a p => a.set p.1 p.2) init).length = init.length := by
  induction L generalizing init with
  | nil => rfl
  | cons p tl ih =>
    simp only [List.foldl_cons]
    rw [ih, List.length_set]

theorem foldl_set_get_not_mem {L : List (Nat × Rat)} {init : List Rat}
    {j : Nat} (hj : ∀ p ∈ L, p.1 ≠ j) :
    (L.foldl (fun a p => a.set p.1 p.2) init).get? j = init.get? j := by
  induction L generalizing init with
  | nil => rfl
  | cons p tl ih =>
    simp only [List.foldl_cons]
    rw [ih (fun q hq => hj q (List.mem_cons_of_mem _ hq))]
    exact List.get?_set_ne _ _ (hj p (List.mem_cons_self p tl))

theorem foldl_set_get_unique {L : List (Nat × Rat)} {init : List Rat}
    {j : Nat} {v : Rat} (hmem : (j, v) ∈ L)
    (huniq : ∀ p ∈ L, p.1 = j → p = (j, v)) (hlen : j < init.length) :
    (L.foldl (fun a p => a.set p.1 p.2) init).get? j = some v := by
  induction L generalizing init with
  | nil => cases hmem
  | cons p tl ih =>
    simp only [List.foldl_cons]
    by_cases hp : p.1 = j
    · have hpv : p = (j, v) := huniq p (List.mem_cons_self p tl) hp
      subst hpv
      by_cases hjt : ∃ q ∈ tl, q.1 = j
      · obtain ⟨q, hq, hq1⟩ := hjt
        have hqv : q = (j, v) := huniq q (List.mem_cons_of_mem _ hq) hq1
        subst hqv
        exact ih hq (fun r hr h1 => huniq r (List.mem_cons_of_mem _ hr) h1)
          (by rw [List.length_set]; exact hlen)
      · push_neg at hjt
        rw [foldl_set_get_not_mem hjt]
        exact List.get?_set_eq_of_lt v hlen
    · rcases List.mem_cons.mp hmem with he | hmem'
      · rw [← he] at hp
        exact absurd rfl hp
      · exact ih hmem' (fun r hr h1 => huniq r (List.mem_cons_of_mem _ hr) h1)
          (by rw [List.length_set]; exact hlen)

theorem mem_tapWrites_iff {s0 s1 s2 s3 H W d0 d1 : Nat} {flat : List Rat}
    {p : Nat × Rat} :
    p ∈ tapWrites s0 s1 s2 s3 H W d0 d1 flat ↔
      ∃ b c h w, b < s0 ∧ c < s1 ∧ h < s2 ∧ w < s3 ∧
        p = (((b*s1+c)*H + h*d0)*W + w*d1,
             flat.getD (((b*s1+c)*s2+h)*s3+w) 0) := by
  constructor
  · intro hp
    simp only [tapWrites, List.mem_flatMap, List.mem_map, List.mem_range] at hp
    obtain ⟨b, hb, c, hc, h, hh, w, hw, he⟩ := hp
    exact ⟨b, c, h, w, hb, hc, hh, hw, he.symm⟩
  · rintro ⟨b, c, h, w, hb, hc, hh, hw, rfl⟩
    simp only [tapWrites, List.mem_flatMap, List.mem_map, List.mem_range]
    exact ⟨b, hb, c, hc, h, hh, w, hw, rfl⟩

theorem tapIdx_lt {s0 s1 H W : Nat} {b c y x : Nat}
    (hb : b < s0) (hc : c < s1) (hy : y < H) (hx : x < W) :
    ((b*s1+c)*H + y)*W + x < s0*s1*H*W := by
  have h1 : (b*s1+c)*H + y < (b*s1+c+1)*H := by
    have he : (b*s1+c+1)*H = (b*s1+c)*H + H := by ring
    omega
  have h2 : b*s1+c+1 ≤ s0*s1 := by
    have hb1 : b + 1 ≤ s0 := hb
    calc b*s1+c+1 ≤ b*s1 + s1 := by omega
    _ = (b+1)*s1 := by ring
    _ ≤ s0*s1 := Nat.mul_le_mul_right s1 hb1
  calc ((b*s1+c)*H + y)*W + x
      < ((b*s1+c)*H + y + 1)*W := by
        have he : ((b*s1+c)*H + y + 1)*W = ((b*s1+c)*H + y)*W + W := by ring
        omega
    _ ≤ ((b*s1+c+1)*H)*W := Nat.mul_le_mul_right W h1
    _ ≤ (s0*s1*H)*W := Nat.mul_le_mul_right W (Nat.mul_le_mul_right H h2)
    _ = s0*s1*H*W := by ring

theorem tapIdx_inj {s1 H W d0 d1 : Nat} (hd0 : 0 < d0) (hd1 : 0 < d1)
    {b c h w b' c' h' w' : Nat}
    (hc : c < s1) (hc' : c' < s1)
    (hh : h*d0 < H) (hh' : h'*d0 < H)
    (hw : w*d1 < W) (hw' : w'*d1 < W)
    (he : ((b*s1+c)*H + h*d0)*W + w*d1 = ((b'*s1+c')*H + h'*d0)*W + w'*d1) :
    b = b' ∧ c = c' ∧ h = h' ∧ w = w' := by
  obtain ⟨hA, hr⟩ := divmod_pair_eq hw hw' he
  obtain ⟨hB, hy⟩ := divmod_pair_eq hh hh' hA
  obtain ⟨hbb, hcc⟩ := divmod_pair_eq hc hc' hB
  exact ⟨hbb, hcc, Nat.eq_of_mul_eq_mul_right hd0 hy,
    Nat.eq_of_mul_eq_mul_right hd1 hr⟩

theorem expandWeight_length (s0 s1 s2 s3 H W d0 d1 : Nat) (flat : List Rat) :
    (expandWeight s0 s1 s2 s3 H W d0 d1 flat).length = s0*s1*H*W := by
  unfold expandWeight
  rw [foldl_set_length, List.length_replicate]

/-- Every original tap value lands at its dilated position. -/
theorem expandWeight_tap {s0 s1 s2 s3 H W d0 d1 : Nat} {flat : List Rat}
    (hd0 : 0 < d0) (hd1 : 0 < d1)
    (hH : ∀ h, h < s2 → h*d0 < H) (hW : ∀ w, w < s3 → w*d1 < W)
    {b c h w : Nat} (hb : b < s0) (hc : c < s1) (hh : h < s2) (hw : w < s3) :
    (expandWeight s0 s1 s2 s3 H W d0 d1 flat).get?
        (((b*s1+c)*H + h*d0)*W + w*d1) =
      some (flat.getD (((b*s1+c)*s2+h)*s3+w) 0) := by
  unfold expandWeight
  apply foldl_set_get_unique
  · exact mem_tapWrites_iff.mpr ⟨b, c, h, w, hb, hc, hh, hw, rfl⟩
  · intro p hp h1
    obtain ⟨b', c', h', w', hb', hc', hh', hw', rfl⟩ := mem_tapWrites_iff.mp hp
    obtain ⟨rfl, rfl, rfl, rfl⟩ := tapIdx_inj hd0 hd1 hc' hc (hH h' hh')
      (hH h hh) (hW w' hw') (hW w hw) h1
    rfl
  · rw [List.length_replicate]
    exact tapIdx_lt hb hc (hH h hh) (hW w hw)

/-- Every position that is not a dilated tap position holds zero. -/
theorem expandWeight_zero {s0 s1 s2 s3 H W d0 d1 : Nat} {flat : List Rat}
    {t : Nat} (ht : t < s0*s1*H*W)
    (hnot : ∀ b c h w, b < s0 → c < s1 → h < s2 → w < s3 →
      t ≠ ((b*s1+c)*H + h*d0)*W + w*d1) :
    (expandWeight s0 s1 s2 s3 H W d0 d1 flat).get? t = some 0 := by
  unfold expandWeight
  have hnp : ∀ p ∈ tapWrites s0 s1 s2 s3 H W d0 d1 flat, p.1 ≠ t := by
    intro p hp
    obtain ⟨b, c, h, w, hb, hc, hh, hw, rfl⟩ := mem_tapWrites_iff.mp hp
    exact fun he => hnot b c h w hb hc hh hw he.symm
  rw [foldl_set_get_not_mem hnp]
  simp [List.get?_eq_getElem?, List.getElem?_replicate, ht]

/-- One fully-selected step of the dilated-conv scan, with every guard
discharged by hypothesis. -/
theorem dilatedGo_step_sel (done : List NodeProto) (n : NodeProto)
    (rest adds rms : List NodeProto) (vi : List ValueInfoProto)
    (ws : List String) (s : String) (w_node : NodeProto)
    (a0 : AttributeProto) (s0 s1 s2 s3 dil0 dil1 : Int) (weight : List Rat)
    (wo wo' : ValueInfoProto) (attrs' : List AttributeProto)
    (hop : n.op_type = "Conv")
    (hboth : (hasDilations n && hasStrides n) = false)
    (hdil : hasDilations n = true)
    (hs : pyGet n.input 1 = Except.ok s)
    (hfind : findNodeByOutput (done ++ n :: rest ++ adds) s = some w_node)
    (ha0 : pyGet w_node.attr 0 = Except.ok a0)
    (hdims : a0.t.dims = [s0, s1, s2, s3])
    (hnoneg : ([s0, s1, s2, s3].any fun dd => decide (dd < 0)) = false)
    (hweight : (if a0.t.float_data.length = 0 then a0.t.raw_data
      else a0.t.float_data) = weight)
    (hwlen : (weight.length ≠ (([s0, s1, s2, s3]).map Int.toNat).prod) = False)
    (hd0 : pyGet (dilationsOf n) 0 = Except.ok dil0)
    (hd1 : pyGet (dilationsOf n) 1 = Except.ok dil1)
    (hdneg : (decide (dil0 < 0) || decide (dil1 < 0)) = false)
    (hnneg : (decide (1 + (s2-1)*dil0 < 0) || decide (1 + (s3-1)*dil1 < 0))
      = false)
    (hfv : findValueInfo vi s = some wo)
    (hmv : dilatedMutVI (1 + (s2-1)*dil0) (1 + (s3-1)*dil1) wo
      = Except.ok wo')
    (hma : dilatedMutAttrs (1 + (s2-1)*dil0) (1 + (s3-1)*dil1) n.attr
      = Except.ok attrs') :
    dilatedGo done (n :: rest) adds rms vi ws =
      dilatedGo (done ++ [{ n with attr := attrs' }]) rest
        (adds ++ [{ op_type := "Constant", name := w_node.name, input := [],
                    output := w_node.output,
                    attr := [{ name := "value",
                               t := { name := a0.t.name,
                                      data_type := a0.t.data_type,
                                      dims := [s0, s1, 1 + (s2-1)*dil0,
                                               1 + (s3-1)*dil1],
                                      float_data := expandWeight s0.toNat
                                        s1.toNat s2.toNat s3.toNat
                                        (1 + (s2-1)*dil0).toNat
                                        (1 + (s3-1)*dil1).toNat
                                        dil0.toNat dil1.toNat weight,
                                      raw_data := [] } }] }])
        (rms ++ [w_node]) (mutateFirstVI vi s (fun _ => wo')) ws := by
  have hstr : hasStrides n = false := by
    rw [hdil] at hboth
    simpa using hboth
  simp only [dilatedGo, if_pos hop, hstr, hdil, hs, hfind, ha0, hdims,
    hnoneg, hweight, hwlen, hd0, hd1, hdneg, hnneg, hfv, hmv, hma,
    Bool.true_and, Bool.and_false, Bool.false_eq_true, Bool.not_true,
    if_false]

/-- Weight tensor of the parametric dilated-conv graph: shape
`[a, b, c, d]`, values `flat`. -/
def wTensorParam (a b c d : Nat) (flat : List Rat) : TensorProto :=
  { name := "w", data_type := 1, dims := [(a:Int), (b:Int), (c:Int), (d:Int)],
    float_data := flat, raw_data := [] }

/-- Constant node producing the weight. -/
def wNodeParam (a b c d : Nat) (flat : List Rat) : NodeProto :=
  { op_type := "Constant", name := "wc", output := ["w"],
    attr := [{ name := "value", t := wTensorParam a b c d flat }] }

/-- Conv node with dilations `[d0, d1]` and kernel_shape `[c, d]`. -/
def convParam (d0 d1 c d : Nat) : NodeProto :=
  { op_type := "Conv", name := "conv", input := ["x", "w"], output := ["y"],
    attr := [{ name := "dilations", ints := [(d0:Int), (d1:Int)] },
             { name := "kernel_shape", ints := [(c:Int), (d:Int)] }] }

/-- ValueInfo of the weight. -/
def wVIParam (a b c d : Nat) : ValueInfoProto :=
  { name := "w", elem_type := 1,
    dim := [Dim.known (a:Int), Dim.known (b:Int), Dim.known (c:Int),
            Dim.known (d:Int)] }

/-- Parametric graph: a Constant weight and a dilated Conv. -/
def gDilParam (a b c d d0 d1 : Nat) (flat : List Rat) : GraphProto :=
  { node := [wNodeParam a b c d flat, convParam d0 d1 c d],
    value_info := [wVIParam a b c d] }

/-- The mutated Conv as the scan produces it (spatial sizes as the
`Int` expressions the code computes). -/
def convDilMid (c d d0 d1 : Nat) : NodeProto :=
  { op_type := "Conv", name := "conv", input := ["x", "w"], output := ["y"],
    attr := [{ name := "dilations", ints := [1, 1] },
             { name := "kernel_shape",
               ints := [1 + ((c:Int)-1)*(d0:Int), 1 + ((d:Int)-1)*(d1:Int)] }] }

/-- The new weight Constant as the scan produces it. -/
def nwMid (a b c d d0 d1 : Nat) (flat : List Rat) : NodeProto :=
  { op_type := "Constant", name := "wc", input := [], output := ["w"],
    attr := [{ name := "value",
               t := { name := "w", data_type := 1,
                      dims := [(a:Int), (b:Int), 1 + ((c:Int)-1)*(d0:Int),
                               1 + ((d:Int)-1)*(d1:Int)],
                      float_data := expandWeight ((a:Int)).toNat ((b:Int)).toNat
                        ((c:Int)).toNat ((d:Int)).toNat
                        (1 + ((c:Int)-1)*(d0:Int)).toNat
                        (1 + ((d:Int)-1)*(d1:Int)).toNat
                        ((d0:Int)).toNat ((d1:Int)).toNat flat,
                      raw_data := [] } }] }

/-- The mutated weight ValueInfo as the scan produces it. -/
def viMid (a b c d d0 d1 : Nat) : ValueInfoProto :=
  { name := "w", elem_type := 1,
    dim := [Dim.known (a:Int), Dim.known (b:Int),
            Dim.known (1 + ((c:Int)-1)*(d0:Int)),
            Dim.known (1 + ((d:Int)-1)*(d1:Int))] }

/-- The rewritten graph, spelled with natural-number spatial sizes
`1 + (c-1)*d0` and `1 + (d-1)*d1`: the Conv's dilations become `[1, 1]`,
its kernel_shape the new spatial size, the weight is replaced by a
Constant of shape `[a, b, new_h, new_w]` holding the expanded kernel. -/
def gDilResultNat (a b c d d0 d1 : Nat) (flat : List Rat) : GraphProto :=
  { node := [
      { op_type := "Conv", name := "conv", input := ["x", "w"],
        output := ["y"],
        attr := [{ name := "dilations", ints := [1, 1] },
                 { name := "kernel_shape",
                   ints := [((1 + (c-1)*d0 : Nat) : Int),
                            ((1 + (d-1)*d1 : Nat) : Int)] }] },
      { op_type := "Constant", name := "wc", input := [], output := ["w"],
        attr := [{ name := "value",
                   t := { name := "w", data_type := 1,
                          dims := [(a:Int), (b:Int), ((1 + (c-1)*d0 : Nat) : Int),
                                   ((1 + (d-1)*d1 : Nat) : Int)],
                          float_data := expandWeight a b c d (1 + (c-1)*d0)
                            (1 + (d-1)*d1) d0 d1 flat,
                          raw_data := [] } }] } ],
    value_info := [{ name := "w", elem_type := 1,
                     dim := [Dim.known (a:Int), Dim.known (b:Int),
                             Dim.known ((1 + (c-1)*d0 : Nat) : Int),
                             Dim.known ((1 + (d-1)*d1 : Nat) : Int)] }] }

/-- CLAIM C1.  On the parametric graph, `replace_dilated_conv` rewrites
the dilated Conv: the weight is replaced by a Constant of shape
`[a, b, 1+(c-1)*d0, 1+(d-1)*d1]` holding the expanded kernel, the Conv's
kernel_shape attribute becomes the new spatial size and its dilations
attribute `[1, 1]`; and, fully generally, the expanded kernel has the
original tap values at the dilated positions and zero everywhere
else. -/
theorem C1_dilated_conv_expansion (a b c d d0 d1 : Nat) (flat : List Rat)
    (hc : 0 < c) (hd : 0 < d) (hd0 : 0 < d0) (hd1 : 0 < d1)
    (hne : ¬ (d0 = 1 ∧ d1 = 1))
    (hflat : flat.length = a * b * c * d) :
    replace_dilated_conv (gDilParam a b c d d0 d1 flat) =
      Except.ok (gDilResultNat a b c d d0 d1 flat, []) ∧
    (expandWeight a b c d (1 + (c-1)*d0) (1 + (d-1)*d1) d0 d1 flat).length =
      a * b * (1 + (c-1)*d0) * (1 + (d-1)*d1) ∧
    (∀ i j y x, i < a → j < b → y < c → x < d →
      (expandWeight a b c d (1 + (c-1)*d0) (1 + (d-1)*d1) d0 d1 flat).get?
          (((i*b+j)*(1 + (c-1)*d0) + y*d0)*(1 + (d-1)*d1) + x*d1) =
        some (flat.getD (((i*b+j)*c + y)*d + x) 0)) ∧
    (∀ t, t < a * b * (1 + (c-1)*d0) * (1 + (d-1)*d1) →
      (∀ i j y x, i < a → j < b → y < c → x < d →
        t ≠ ((i*b+j)*(1 + (c-1)*d0) + y*d0)*(1 + (d-1)*d1) + x*d1) →
      (expandWeight a b c d (1 + (c-1)*d0) (1 + (d-1)*d1) d0 d1 flat).get? t
        = some 0) := by
  have hHf : ∀ y, y < c → y*d0 < 1 + (c-1)*d0 := by
    intro y hy
    have h1 : y*d0 ≤ (c-1)*d0 := Nat.mul_le_mul_right d0 (by omega)
    omega
  have hWf : ∀ x, x < d → x*d1 < 1 + (d-1)*d1 := by
    intro x hx
    have h1 : x*d1 ≤ (d-1)*d1 := Nat.mul_le_mul_right d1 (by omega)
    omega
  refine ⟨?_, expandWeight_length _ _ _ _ _ _ _ _ _,
    fun i j y x hi hj hy hx => expandWeight_tap hd0 hd1 hHf hWf hi hj hy hx,
    fun t ht hnot =>
      expandWeight_zero ht (fun i j y x hi hj hy hx =>
        hnot i j y x hi hj hy hx)⟩
  have hdilEq : hasDilations (convParam d0 d1 c d) = true := by
    have h12 : ¬ ([(d0:Int), (d1:Int)] = [1, 1]) := by
      intro h
      injection h with h1 h2
      injection h2 with h2 h3
      exact hne ⟨by exact_mod_cast h1, by exact_mod_cast h2⟩
    simp [hasDilations, convParam, h12]
  have hboth : (hasDilations (convParam d0 d1 c d) &&
      hasStrides (convParam d0 d1 c d)) = false := by
    have hstr : hasStrides (convParam d0 d1 c d) = false := rfl
    rw [hstr, Bool.and_false]
  have hwe : (if flat.length = 0 then ([] : List Rat) else flat) = flat := by
    split
    · rename_i h0
      exact (List.length_eq_zero.mp h0).symm
    · rfl
  have hprod : (([(a:Int), (b:Int), (c:Int), (d:Int)]).map Int.toNat).prod
      = a*b*c*d := by
    simp
    ring
  have hwlen : (flat.length ≠
      (([(a:Int), (b:Int), (c:Int), (d:Int)]).map Int.toNat).prod) = False := by
    rw [hprod, hflat]
    simp
  have hnoneg : (([(a:Int), (b:Int), (c:Int), (d:Int)].any
      fun dd => decide (dd < 0)) = false) := by
    simp
  have hdneg : (decide ((d0:Int) < 0) || decide ((d1:Int) < 0)) = false := by
    simp
  have hnneg : (decide (1 + ((c:Int)-1)*(d0:Int) < 0) ||
      decide (1 + ((d:Int)-1)*(d1:Int) < 0)) = false := by
    have h2 : 0 ≤ ((c:Int)-1)*(d0:Int) := mul_nonneg (by omega) (by omega)
    have h3 : 0 ≤ ((d:Int)-1)*(d1:Int) := mul_nonneg (by omega) (by omega)
    simp only [Bool.or_eq_false_iff, decide_eq_false_iff_not]
    constructor <;> omega
  have hstep := dilatedGo_step_sel [wNodeParam a b c d flat]
    (convParam d0 d1 c d) [] [] [] [wVIParam a b c d] [] "w"
    (wNodeParam a b c d flat)
    { name := "value", t := wTensorParam a b c d flat }
    (a:Int) (b:Int) (c:Int) (d:Int) (d0:Int) (d1:Int) flat
    (wVIParam a b c d) (viMid a b c d d0 d1)
    [{ name := "dilations", ints := [1, 1] },
     { name := "kernel_shape",
       ints := [1 + ((c:Int)-1)*(d0:Int), 1 + ((d:Int)-1)*(d1:Int)] }]
    rfl hboth hdilEq rfl rfl rfl rfl hnoneg hwe hwlen rfl rfl hdneg hnneg
    rfl rfl rfl
  have hgo : dilatedGo [] [wNodeParam a b c d flat, convParam d0 d1 c d]
      [] [] [wVIParam a b c d] [] =
      Except.ok ([wNodeParam a b c d flat, convDilMid c d d0 d1],
        [nwMid a b c d d0 d1 flat], [wNodeParam a b c d flat],
        [viMid a b c d d0 d1], []) := by
    have h1 : dilatedGo [] [wNodeParam a b c d flat, convParam d0 d1 c d]
        [] [] [wVIParam a b c d] [] =
        dilatedGo [wNodeParam a b c d flat] [convParam d0 d1 c d]
        [] [] [wVIParam a b c d] [] := rfl
    rw [h1, hstep]
    rfl
  have hrm1 : pyRemove [wNodeParam a b c d flat, convDilMid c d d0 d1,
      nwMid a b c d d0 d1 flat] (wNodeParam a b c d flat) =
      Except.ok [convDilMid c d d0 d1, nwMid a b c d d0 d1 flat] := by
    simp only [pyRemove]
    rw [if_pos trivial]
  have hrm : pyRemoveAll ([wNodeParam a b c d flat, convDilMid c d d0 d1]
      ++ [nwMid a b c d d0 d1 flat]) [wNodeParam a b c d flat] =
      Except.ok [convDilMid c d d0 d1, nwMid a b c d d0 d1 flat] := by
    simp only [List.cons_append, List.nil_append]
    simp only [pyRemoveAll, hrm1]
  have hnew2 : 1 + ((c:Int)-1)*(d0:Int) = ((1 + (c-1)*d0 : Nat) : Int) := by
    have h1c : ((c - 1 : Nat) : Int) = (c:Int) - 1 := by omega
    push_cast
    rw [h1c]
  have hnew3 : 1 + ((d:Int)-1)*(d1:Int) = ((1 + (d-1)*d1 : Nat) : Int) := by
    have h1d : ((d - 1 : Nat) : Int) = (d:Int) - 1 := by omega
    push_cast
    rw [h1d]
  unfold replace_dilated_conv
  have hgo' : dilatedGo [] (gDilParam a b c d d0 d1 flat).node [] []
      (gDilParam a b c d d0 d1 flat).value_info [] =
      Except.ok ([wNodeParam a b c d flat, convDilMid c d d0 d1],
        [nwMid a b c d d0 d1 flat], [wNodeParam a b c d flat],
        [viMid a b c d d0 d1], []) := hgo
  simp only [hgo', hrm]
  show Except.ok ({ gDilParam a b c d d0 d1 flat with
      node := [convDilMid c d d0 d1, nwMid a b c d d0 d1 flat],
      value_info := [viMid a b c d d0 d1] }, ([] : List String)) = _
  simp only [gDilParam, convDilMid, nwMid, viMid, gDilResultNat, hnew2, hnew3,
    Int.toNat_natCast]

/-- CLAIM C1, witness: kernel `[[1,2],[3,4]]` with dilation `[2,2]`
expands to `[[1,0,2],[0,0,0],[3,0,4]]`, and the pass rewrites the
concrete graph accordingly. -/
theorem C1_dilated_conv_expansion_witness :
    replace_dilated_conv (gDilParam 1 1 2 2 2 2 [1, 2, 3, 4]) =
      Except.ok (gDilResultNat 1 1 2 2 2 2 [1, 2, 3, 4], []) ∧
    expandWeight 1 1 2 2 3 3 2 2 [1, 2, 3, 4] =
      [1, 0, 2, 0, 0, 0, 3, 0, 4] := by
  refine ⟨(C1_dilated_conv_expansion 1 1 2 2 2 2 [1, 2, 3, 4] (by decide)
    (by decide) (by decide) (by decide) (by decide) (by decide)).1, ?_⟩
  decide

/-! ## Claim C9: depthwise 1x1 Conv to BatchNormalization -/

/-- Constant producing the depthwise scale (weight) of shape
`[G, 1, 1, 1]`. -/
def scaleConstDW (G : Nat) (vals : List Rat) : NodeProto :=
  { op_type := "Constant", name := "sc", output := ["w"],
    attr := [{ name := "value",
               t := { name := "w", data_type := 1,
                      dims := [(G:Int), 1, 1, 1],
                      float_data := vals, raw_data := [] } }] }

/-- Depthwise 1x1 Conv with `group = G`, no bias input. -/
def convDWnb (G : Nat) : NodeProto :=
  { op_type := "Conv", name := "cv", input := ["x", "w"], output := ["y"],
    attr := [{ name := "group", i := (G:Int) },
             { name := "kernel_shape", ints := [1, 1] }] }

/-- Depthwise 1x1 Conv with `group = G` and a bias input `b`. -/
def convDWb (G : Nat) : NodeProto :=
  { op_type := "Conv", name := "cv", input := ["x", "w", "b"],
    output := ["y"],
    attr := [{ name := "group", i := (G:Int) },
             { name := "kernel_shape", ints := [1, 1] }] }

/-- ValueInfo of the weight, shape `[G, 1, 1, 1]`. -/
def wVIDW (G : Nat) : ValueInfoProto :=
  { name := "w", elem_type := 1,
    dim := [Dim.known (G:Int), Dim.known 1, Dim.known 1, Dim.known 1] }

/-- Graph with the scale Constant and the bias-less depthwise Conv. -/
def gDWnb (G : Nat) (vals : List Rat) : GraphProto :=
  { node := [scaleConstDW G vals, convDWnb G],
    value_info := [wVIDW G] }

/-- Graph with the scale Constant and the depthwise Conv with bias. -/
def gDWb (G : Nat) (vals : List Rat) : GraphProto :=
  { node := [scaleConstDW G vals, convDWb G],
    value_info := [wVIDW G] }

/-- The scale Constant after the rewrite: shape squeezed to `[G]`. -/
def scaleDWResult (G : Nat) (vals : List Rat) : NodeProto :=
  { op_type := "Constant", name := "sc", output := ["w"],
    attr := [{ name := "value",
               t := { name := "w", data_type := 1, dims := [(G:Int)],
                      float_data := vals, raw_data := [] } }] }

/-- The weight ValueInfo after the rewrite: shape squeezed to `[G]`. -/
def wVIDWResult (G : Nat) : ValueInfoProto :=
  { name := "w", elem_type := 1, dim := [Dim.known (G:Int)] }

/-- The BatchNormalization node replacing the Conv: same name and
outputs, inputs `[data, scale, bias, mean, variance]`,
`epsilon = 1e-5`, `momentum = 0.9`. -/
def bnDW (bias : String) : NodeProto :=
  { op_type := "BatchNormalization", name := "cv",
    input := ["x", "w", bias, "cv_mean", "cv_var"], output := ["y"],
    attr := [{ name := "epsilon", f := 1 / 100000 },
             { name := "momentum", f := 9 / 10 }] }

/-- Result of the pass on the bias-less graph: a zero bias of length `G`
is synthesized, mean is zeros, variance is ones. -/
def gDWnbResult (G : Nat) (vals : List Rat) : GraphProto :=
  { node := [scaleDWResult G vals,
             list_to_constant "cv_bias" [(G:Int)] (List.replicate G 0),
             list_to_constant "cv_mean" [(G:Int)] (List.replicate G 0),
             list_to_constant "cv_var" [(G:Int)] (List.replicate G 1),
             bnDW "cv_bias"],
    value_info := [wVIDWResult G] }

/-- Result of the pass on the graph with bias: the Conv's own bias input
`b` is reused. -/
def gDWbResult (G : Nat) (vals : List Rat) : GraphProto :=
  { node := [scaleDWResult G vals,
             list_to_constant "cv_mean" [(G:Int)] (List.replicate G 0),
             list_to_constant "cv_var" [(G:Int)] (List.replicate G 1),
             bnDW "b"],
    value_info := [wVIDWResult G] }

/-- CLAIM C9.  On both parametric graphs (with and without a bias
input), the pass squeezes the scale shape from `[G,1,1,1]` to `[G]` in
the tensor and its ValueInfo, reuses the Conv's bias input when present
and otherwise synthesizes a zero bias of length `G`, synthesizes a zero
mean and a ones variance of length `G`, and replaces the Conv by a
BatchNormalization with inputs `[data, scale, bias, mean, variance]`,
`epsilon = 1/100000`, `momentum = 9/10`, and the Conv's name and
outputs. -/
theorem C9_depthwise_to_bn (G : Nat) (vals : List Rat) (hG : 1 < G) :
    replace_depthwise_1x1_with_bn (gDWnb G vals) =
      Except.ok (gDWnbResult G vals) ∧
    replace_depthwise_1x1_with_bn (gDWb G vals) =
      Except.ok (gDWbResult G vals) := by
  have h1G : ¬ (G:Int) = 1 := by omega
  have hne1 : ¬ scaleDWResult G vals = convDWnb G := by
    intro h
    have h2 : "Constant" = "Conv" := congrArg NodeProto.op_type h
    exact absurd h2 (by decide)
  have hne1b : ¬ scaleDWResult G vals = convDWb G := by
    intro h
    have h2 : "Constant" = "Conv" := congrArg NodeProto.op_type h
    exact absurd h2 (by decide)
  constructor
  · have hgo : depthwiseGo (gDWnb G vals) []
        [scaleConstDW G vals, convDWnb G] [] [] [wVIDW G] =
        Except.ok ([scaleDWResult G vals, convDWnb G],
          [list_to_constant "cv_bias" [(G:Int)] (List.replicate G 0),
           list_to_constant "cv_mean" [(G:Int)] (List.replicate G 0),
           list_to_constant "cv_var" [(G:Int)] (List.replicate G 1),
           bnDW "cv_bias"],
          [convDWnb G], [wVIDWResult G]) := by
      simp only [depthwiseGo]
      rw [if_neg (show ¬ (scaleConstDW G vals).op_type = "Conv" by
        intro h
        have h2 : "Constant" = "Conv" := h
        exact absurd h2 (by decide))]
      rw [if_pos (show (convDWnb G).op_type = "Conv" from rfl)]
      simp only [show attrMap (convDWnb G) "group" =
        some ({ name := "group", i := (G:Int) } : AttributeProto) from rfl]
      rw [if_neg h1G]
      show depthwiseGo (gDWnb G vals) [scaleDWResult G vals, convDWnb G] []
        [list_to_constant "cv_bias" [(G:Int)] (List.replicate G 0),
         list_to_constant "cv_mean" [(G:Int)] (List.replicate G 0),
         list_to_constant "cv_var" [(G:Int)] (List.replicate G 1),
         bnDW "cv_bias"] [convDWnb G] [wVIDWResult G] = _
      simp only [depthwiseGo]
    have hgo' : depthwiseGo (gDWnb G vals) [] (gDWnb G vals).node [] []
        (gDWnb G vals).value_info =
        Except.ok ([scaleDWResult G vals, convDWnb G],
          [list_to_constant "cv_bias" [(G:Int)] (List.replicate G 0),
           list_to_constant "cv_mean" [(G:Int)] (List.replicate G 0),
           list_to_constant "cv_var" [(G:Int)] (List.replicate G 1),
           bnDW "cv_bias"],
          [convDWnb G], [wVIDWResult G]) := hgo
    have hrm1 : pyRemove [scaleDWResult G vals, convDWnb G,
        list_to_constant "cv_bias" [(G:Int)] (List.replicate G 0),
        list_to_constant "cv_mean" [(G:Int)] (List.replicate G 0),
        list_to_constant "cv_var" [(G:Int)] (List.replicate G 1),
        bnDW "cv_bias"] (convDWnb G) =
        Except.ok [scaleDWResult G vals,
          list_to_constant "cv_bias" [(G:Int)] (List.replicate G 0),
          list_to_constant "cv_mean" [(G:Int)] (List.replicate G 0),
          list_to_constant "cv_var" [(G:Int)] (List.replicate G 1),
          bnDW "cv_bias"] := by
      simp only [pyRemove]
      rw [if_neg hne1, if_pos trivial]
    have hrm : pyRemoveAll [scaleDWResult G vals, convDWnb G,
        list_to_constant "cv_bias" [(G:Int)] (List.replicate G 0),
        list_to_constant "cv_mean" [(G:Int)] (List.replicate G 0),
        list_to_constant "cv_var" [(G:Int)] (List.replicate G 1),
        bnDW "cv_bias"] [convDWnb G] =
        Except.ok [scaleDWResult G vals,
          list_to_constant "cv_bias" [(G:Int)] (List.replicate G 0),
          list_to_constant "cv_mean" [(G:Int)] (List.replicate G 0),
          list_to_constant "cv_var" [(G:Int)] (List.replicate G 1),
          bnDW "cv_bias"] := by
      simp only [pyRemoveAll, hrm1]
    unfold replace_depthwise_1x1_with_bn
    simp only [hgo', List.cons_append, List.nil_append, hrm]
    rfl
  · have hgo : depthwiseGo (gDWb G vals) []
        [scaleConstDW G vals, convDWb G] [] [] [wVIDW G] =
        Except.ok ([scaleDWResult G vals, convDWb G],
          [list_to_constant "cv_mean" [(G:Int)] (List.replicate G 0),
           list_to_constant "cv_var" [(G:Int)] (List.replicate G 1),
           bnDW "b"],
          [convDWb G], [wVIDWResult G]) := by
      simp only [depthwiseGo]
      rw [if_neg (show ¬ (scaleConstDW G vals).op_type = "Conv" by
        intro h
        have h2 : "Constant" = "Conv" := h
        exact absurd h2 (by decide))]
      rw [if_pos (show (convDWb G).op_type = "Conv" from rfl)]
      simp only [show attrMap (convDWb G) "group" =
        some ({ name := "group", i := (G:Int) } : AttributeProto) from rfl]
      rw [if_neg h1G]
      show depthwiseGo (gDWb G vals) [scaleDWResult G vals, convDWb G] []
        [list_to_constant "cv_mean" [(G:Int)] (List.replicate G 0),
         list_to_constant "cv_var" [(G:Int)] (List.replicate G 1),
         bnDW "b"] [convDWb G] [wVIDWResult G] = _
      simp only [depthwiseGo]
    have hgo' : depthwiseGo (gDWb G vals) [] (gDWb G vals).node [] []
        (gDWb G vals).value_info =
        Except.ok ([scaleDWResult G vals, convDWb G],
          [list_to_constant "cv_mean" [(G:Int)] (List.replicate G 0),
           list_to_constant "cv_var" [(G:Int)] (List.replicate G 1),
           bnDW "b"],
          [convDWb G], [wVIDWResult G]) := hgo
    have hrm1 : pyRemove [scaleDWResult G vals, convDWb G,
        list_to_constant "cv_mean" [(G:Int)] (List.replicate G 0),
        list_to_constant "cv_var" [(G:Int)] (List.replicate G 1),
        bnDW "b"] (convDWb G) =
        Except.ok [scaleDWResult G vals,
          list_to_constant "cv_mean" [(G:Int)] (List.replicate G 0),
          list_to_constant "cv_var" [(G:Int)] (List.replicate G 1),
          bnDW "b"] := by
      simp only [pyRemove]
      rw [if_neg hne1b, if_pos trivial]
    have hrm : pyRemoveAll [scaleDWResult G vals, convDWb G,
        list_to_constant "cv_mean" [(G:Int)] (List.replicate G 0),
        list_to_constant "cv_var" [(G:Int)] (List.replicate G 1),
        bnDW "b"] [convDWb G] =
        Except.ok [scaleDWResult G vals,
          list_to_constant "cv_mean" [(G:Int)] (List.replicate G 0),
          list_to_constant "cv_var" [(G:Int)] (List.replicate G 1),
          bnDW "b"] := by
      simp only [pyRemoveAll, hrm1]
    unfold replace_depthwise_1x1_with_bn
    simp only [hgo', List.cons_append, List.nil_append, hrm]
    rfl

/-- CLAIM C9, witness: the concrete instance with `G = 2` and scale
values `[5, 7]`, in both the bias-less and the bias-carrying variant. -/
theorem C9_depthwise_to_bn_witness :
    replace_depthwise_1x1_with_bn (gDWnb 2 [5, 7]) =
      Except.ok (gDWnbResult 2 [5, 7]) ∧
    replace_depthwise_1x1_with_bn (gDWb 2 [5, 7]) =
      Except.ok (gDWbResult 2 [5, 7]) :=
  C9_depthwise_to_bn 2 [5, 7] (by decide)
